import Mathlib

/-!
Shallow embedding of the Call Campaign Orchestrator of
`backend/services/phone_call_executor.py`, together with the requirement
summarizer of `backend/services/generic_llm_executor.py`.

Modelling conventions:
* Python dictionaries that carry vendor-candidate data become the structure
  `RestDict` whose fields are `Option`-valued (a `none` field is an absent key).
* A message payload is either a string, a list of items, or some other value
  (`Payload.other` carries an abstract textual rendering, standing for
  Python's `str()` of an arbitrary object).
* Exceptions are modelled with `Except String`; the error string names the
  Python exception class that would be raised.
* External collaborators (the Firestore client, the Synthflow call provider,
  the OpenAI client) are parameters gathered in environment structures; the
  document store is threaded explicitly as a state `FS` (the message list of
  the one task involved, newest first, as returned by
  `firestore_service.get_task_messages`).
* Store writes and provider interactions are additionally recorded in an
  event trace so that ordering properties ("the status write happens before
  any call is placed") and absence properties ("no writes") can be stated.
* Wall-clock sleeping (`asyncio.sleep`) and server timestamps are not
  modelled; only the iteration structure of the polling loop is.
-/

/-- A vendor-candidate dictionary as stored in a message's `text` list.
Each field models the presence/absence of the corresponding key. -/
structure RestDict where
  name : Option String := none
  phone : Option String := none
  selected : Option Bool := none
  status : Option String := none
  call_id : Option String := none
  recording_url : Option String := none
  transcript : Option String := none
  deriving DecidableEq

/-- An element of a list payload: either a vendor-candidate dictionary or a
non-dictionary value (on which attribute access like `.get` raises). -/
inductive ListItem where
  | nondict (repr : String)
  | dict (r : RestDict)
  deriving DecidableEq

/-- A message payload: a string, a list, or some other Python value. -/
inductive Payload where
  | str (s : String)
  | list (items : List ListItem)
  | other (repr : String)
  deriving DecidableEq

/-- A message document as returned by `get_task_messages` (which always
attaches the document id; `id` is kept optional because the executor reads it
with `.get("id")`). `message`, `ai` and `user` fields are written by clients
as plain strings. -/
structure Message where
  id : Option String := none
  text : Option Payload := none
  message : Option String := none
  ai : Option String := none
  user : Option String := none
  deriving DecidableEq

/-- The Conversation Store state for one task: its messages, newest first. -/
structure FS where
  msgs : List Message
  deriving DecidableEq

/-- Python `str()` of a list payload, abstracted: the exact rendering is
irrelevant to every property proved here. -/
def pyReprItem : ListItem → String
  | .nondict r => r
  | .dict _ => "{...}"

/-- Python `str()` of a payload (used when a payload is interpolated into an
f-string without the list special case). -/
def pyStr : Payload → String
  | .str s => s
  | .list items => "[" ++ String.intercalate ", " (items.map pyReprItem) ++ "]"
  | .other r => r

/-- One line of the `Restaurant options:` block built for a list payload
(`f"{i}. {restaurant.get('name', 'Unknown')} - {restaurant.get('phone', 'No phone')}\n"`).
A non-dictionary item raises `AttributeError` (`.get` on a non-dict). -/
def restLine (i : Nat) : ListItem → Except String String
  | .nondict _ => .error "AttributeError"
  | .dict r =>
      .ok (toString i ++ ". " ++ r.name.getD "Unknown" ++ " - " ++
        r.phone.getD "No phone" ++ "\n")

/-- The enumerated body of the `Restaurant options:` block, 1-based. -/
def restBody : Nat → List ListItem → Except String String
  | _, [] => .ok ""
  | i, it :: rest => do
      let l ← restLine i it
      let r ← restBody (i + 1) rest
      .ok (l ++ r)

/-- The conversation part contributed by one message (lines 40-54 of
`phone_call_executor.py`): `none` when the message has none of the four
content fields. -/
def convPart (m : Message) : Except String (Option String) :=
  match m.text with
  | some (.list items) => do
      let b ← restBody 1 items
      .ok (some ("AI: " ++ "Restaurant options:\n" ++ b))
  | some p => .ok (some ("AI: " ++ pyStr p))
  | none =>
      match m.message with
      | some s => .ok (some ("User: " ++ s))
      | none =>
          match m.ai with
          | some s => .ok (some ("AI: " ++ s))
          | none =>
              match m.user with
              | some s => .ok (some ("User: " ++ s))
              | none => .ok none

/-- The conversation parts of a chronologically ordered message list, first
error first, as the Python loop appends them. -/
def convParts : List Message → Except String (List String)
  | [] => .ok []
  | m :: rest => do
      let p ← convPart m
      let tail ← convParts rest
      .ok (match p with | some s => s :: tail | none => tail)

/-- The flattened conversation transcript: parts of all messages in
chronological order (the store returns newest first, the code reverses),
joined with newlines. -/
def buildConversation (msgs : List Message) : Except String String := do
  let parts ← convParts msgs.reverse
  .ok (String.intercalate "\n" parts)

/-- The payload examined for option extraction: the first present of
`text` / `message` / `ai` / `user`, defaulting to the empty string
(`message_text = ""`). -/
def lastPayload (m : Message) : Payload :=
  match m.text with
  | some p => p
  | none =>
      match m.message with
      | some s => .str s
      | none =>
          match m.ai with
          | some s => .str s
          | none =>
              match m.user with
              | some s => .str s
              | none => .str ""

/-- Python `message_text.split("\n")` on a character list: `"".split("\n")`
is `[""]`, a trailing newline yields a trailing empty line. -/
def pySplitNl : List Char → List (List Char)
  | [] => [[]]
  | c :: rest =>
      if c = '\n' then [] :: pySplitNl rest
      else
        match pySplitNl rest with
        | l :: ls => (c :: l) :: ls
        | [] => [[c]]

/-- Python `line.strip()`: leading and trailing whitespace removed. -/
def pyStrip (s : List Char) : List Char :=
  ((s.dropWhile Char.isWhitespace).reverse.dropWhile Char.isWhitespace).reverse

/-- Python indexing `s[i]` on a character list: `IndexError` out of range. -/
def pyIndex (s : List Char) (i : Nat) : Except String Char :=
  match s.get? i with
  | some c => .ok c
  | none => .error "IndexError"

/-- The enumerated-choice test of the string fallback, with Python's actual
grouping: `(line and (line[0].isdigit() and line[1] in [".", ")", " "])) or
(line[0].isalpha() and line[1] in [".", ")", " "])` — note that the emptiness
guard `line` covers only the first disjunct. -/
def lineCond (s : List Char) : Except String Bool := do
  let d1 : Bool ←
    if s.isEmpty then pure false
    else do
      let c0 ← pyIndex s 0
      if c0.isDigit then do
        let c1 ← pyIndex s 1
        pure (c1 = '.' || c1 = ')' || c1 = ' ')
      else pure false
  if d1 then pure true
  else do
    let c0 ← pyIndex s 0
    if c0.isAlpha then do
      let c1 ← pyIndex s 1
      pure (c1 = '.' || c1 = ')' || c1 = ' ')
    else pure false

/-- A surfaced selected option: a dictionary `{name, phone, status, ...}`
from a list payload, or a raw line from the string fallback. -/
structure OptData where
  name : String
  phone : String
  status : String
  call_id : Option String := none
  recording_url : Option String := none
  transcript : Option String := none
  deriving DecidableEq

/-- An entry of the options list returned by `fetch_selected_options`. -/
inductive OptionEntry where
  | strOpt (s : String)
  | dictOpt (d : OptData)
  deriving DecidableEq

/-- The option dictionary built for one selected candidate. -/
def mkOptData (r : RestDict) (nm : String) : OptData :=
  { name := nm
    phone := r.phone.getD "No phone"
    status := r.status.getD "unknown"
    call_id := r.call_id
    recording_url := r.recording_url
    transcript := r.transcript }

/-- Selection from a list payload: keep dictionaries that have a `name` key
and `selected == True`. -/
def selectedOptions (items : List ListItem) : List OptionEntry :=
  items.filterMap fun it =>
    match it with
    | .dict r =>
        match r.name with
        | some nm => if r.selected = some true then some (.dictOpt (mkOptData r nm)) else none
        | none => none
    | .nondict _ => none

/-- The line loop of the string fallback: strip each line, keep those
passing `lineCond` (which can raise `IndexError`), first error first. -/
def extractLines : List (List Char) → Except String (List OptionEntry)
  | [] => .ok []
  | line :: rest => do
      let l := pyStrip line
      let b ← lineCond l
      let tail ← extractLines rest
      .ok (if b then .strOpt (String.mk l) :: tail else tail)

/-- The string fallback: split on newlines and scan the lines. -/
def extractStrOptions (s : String) : Except String (List OptionEntry) :=
  extractLines (pySplitNl s.toList)

/-- Option extraction from the most recent message's payload. -/
def extractOptions : Payload → Except String (List OptionEntry)
  | .list items => .ok (selectedOptions items)
  | .str s => extractStrOptions s
  | .other _ => .ok []

/-- Model of `fetch_selected_options`: returns `([], "")` when the task has no
messages; otherwise builds the transcript over all messages, then extracts
options from the most recent message. Read-only; exceptions propagate. -/
def fetchSelectedOptions (msgs : List Message) : Except String (List OptionEntry × String) :=
  match msgs with
  | [] => .ok ([], "")
  | m :: _ => do
      let convo ← buildConversation msgs
      let opts ← extractOptions (lastPayload m)
      .ok (opts, convo)

/-- The payload returned by the Call Provider's `place call`; only
`response.call_id` is ever read by the orchestrator. -/
structure SynthResult where
  call_id : Option String := none
  deriving DecidableEq

/-- One per-candidate campaign result
(`{restaurant_name, phone, call_result, status, error?}`). -/
structure CallResult where
  restaurant_name : String
  phone : String
  call_result : Option SynthResult
  status : String
  error : Option String := none
  deriving DecidableEq

/-- Store writes and provider interactions performed by
`execute_phone_calls_for_selected_options`, in order. -/
inductive Event where
  | writeStatus (mid : String) (items : List ListItem)
  | placeAttempt (name phone requirement : String)
  | writeResults (mid : String) (items : List ListItem)
  | appendResults (items : List ListItem)
  | spawnPoll (ids : List String)
  deriving DecidableEq

/-- External collaborators of one orchestrator invocation. `place i` is the
outcome of the `i`-th (0-based) `make_synthflow_call`; the two `Fails` flags
inject a raising Firestore write into the status-update and the
call-results-update helpers respectively. -/
structure Env where
  summarize : String → String
  place : Nat → Except String SynthResult
  statusWriteFails : Bool := false
  resultsWriteFails : Bool := false

/-- In-place update (`doc_ref.update`) of the `text` field of every message
whose id matches (the server timestamp also written is not modelled). -/
def updateDoc (fs : FS) (mid : String) (newItems : List ListItem) : FS :=
  ⟨fs.msgs.map fun m => if m.id = some mid then { m with text := some (.list newItems) } else m⟩

/-- Model of `write_task_message` fallback: a fresh document, newest on next read. -/
def appendMsg (fs : FS) (newItems : List ListItem) : FS :=
  ⟨{ id := some "generated-id", text := some (.list newItems) } :: fs.msgs⟩

/-- The inner scan of `_update_selected_options_status`: does any option's
`option["name"]` equal `nm`? Reading `option["name"]` on a plain-string
option raises `TypeError`. -/
def findNameMatch (options : List OptionEntry) (nm : String) : Except String Bool :=
  match options with
  | [] => .ok false
  | .strOpt _ :: _ => .error "TypeError"
  | .dictOpt d :: rest => if d.name = nm then .ok true else findNameMatch rest nm

/-- The rebuilt candidate list of `_update_selected_options_status`:
dictionaries with a name are kept (status overwritten on a name match),
everything else is dropped. -/
def updateStatusItems (options : List OptionEntry) (status : String) :
    List ListItem → Except String (List ListItem)
  | [] => .ok []
  | it :: rest =>
      match it with
      | .dict r =>
          match r.name with
          | some nm => do
              let b ← findNameMatch options nm
              let tail ← updateStatusItems options status rest
              .ok (.dict (if b then { r with status := some status } else r) :: tail)
          | none => updateStatusItems options status rest
      | .nondict _ => updateStatusItems options status rest

/-- Model of `_update_selected_options_status`: read the messages, rebuild the last
message's candidate list with the new status, write it back in place when a
message id is present (skip with a log otherwise). A raising write (or the
`TypeError` above) propagates — the helper's own handler re-raises. -/
def updateSelectedOptionsStatus (env : Env) (fs : FS) (options : List OptionEntry)
    (status : String) : Except String (FS × List Event) :=
  match fs.msgs with
  | [] => .ok (fs, [])
  | m :: _ =>
      match m.text with
      | some (.list items) => do
          let items' ← updateStatusItems options status items
          match m.id with
          | some mid =>
              if env.statusWriteFails then .error "FirestoreError"
              else .ok (updateDoc fs mid items', [Event.writeStatus mid items'])
          | none => .ok (fs, [])
      | _ => .ok (fs, [])

/-- The record appended for the `i`-th candidate by the placement loop. -/
def placeResult (env : Env) (i : Nat) (d : OptData) : CallResult :=
  match env.place i with
  | .ok r => { restaurant_name := d.name, phone := d.phone, call_result := some r, status := "success" }
  | .error e =>
      { restaurant_name := d.name, phone := d.phone, call_result := none, status := "failed"
        error := some e }

/-- The sequential placement loop. A plain-string option raises `TypeError`
(`option['name']` in the f-string of the call announcement, re-raised from
the handler) before any provider interaction; a dictionary option always
yields exactly one `placeAttempt` and one `CallResult`, the per-candidate
try/except converting a raising placement into a `failed` record. -/
def placeLoop (env : Env) (req : String) : List OptionEntry → Nat → Except String (List CallResult × List Event)
  | [], _ => .ok ([], [])
  | .strOpt _ :: _, _ => .error "TypeError"
  | .dictOpt d :: rest, i => do
      let (rs, evs) ← placeLoop env req rest (i + 1)
      .ok (placeResult env i d :: rs, Event.placeAttempt d.name d.phone req :: evs)

/-- The `restaurant_name -> call_id` dictionary of
`_update_firestore_message_with_call_results`. Built over the results in
order with later assignments overwriting earlier ones; a result whose
`call_result` is `None` (a failed placement) raises `AttributeError`
(`None.get("response")`), unless its name is falsy. -/
def buildCallResultsMap (results : List CallResult) : Except String (String → Option String) :=
  results.foldlM
    (fun acc r =>
      if r.restaurant_name = "" then .ok acc
      else
        match r.call_result with
        | none => .error "AttributeError"
        | some sr =>
            match sr.call_id with
            | some cid => .ok fun nm => if nm = r.restaurant_name then some cid else acc nm
            | none => .ok acc)
    (fun _ => (none : Option String))

/-- The rebuilt candidate list of `_update_firestore_message_with_call_results`:
name-matched candidates get the `call_id` and status `loading`. -/
def resultItems (map : String → Option String) (items : List ListItem) : List ListItem :=
  items.filterMap fun it =>
    match it with
    | .dict r =>
        match r.name with
        | some nm =>
            some (.dict (match map nm with
              | some cid => { r with call_id := some cid, status := some "loading" }
              | none => r))
        | none => none
    | .nondict _ => none

/-- Model of `_update_firestore_message_with_call_results`: attach call ids and
`loading` status to the last message's candidate list and write it back
(update in place when an id is present, otherwise append a fresh message). -/
def updateFirestoreMessageWithCallResults (env : Env) (fs : FS)
    (results : List CallResult) : Except String (FS × List Event) :=
  match fs.msgs with
  | [] => .ok (fs, [])
  | m :: _ => do
      let map ← buildCallResultsMap results
      match m.text with
      | some (.list items) =>
          let items' := resultItems map items
          match m.id with
          | some mid =>
              if env.resultsWriteFails then .error "FirestoreError"
              else .ok (updateDoc fs mid items', [Event.writeResults mid items'])
          | none =>
              if env.resultsWriteFails then .error "FirestoreError"
              else .ok (appendMsg fs items', [Event.appendResults items'])
      | _ => .ok (fs, [])

/-- The caller-side try/except around the call-results write (lines 211-218):
any failure is logged only, leaving the store and the trace unchanged. -/
def writeResultsStep (env : Env) (fs : FS) (results : List CallResult) : FS × List Event :=
  match updateFirestoreMessageWithCallResults env fs results with
  | .ok (fs', evs) => (fs', evs)
  | .error _ => (fs, [])

/-- Call ids of the successful placements, in order. -/
def collectCallIds (results : List CallResult) : List String :=
  results.filterMap fun r =>
    if r.status = "success" then
      match r.call_result with
      | some sr => sr.call_id
      | none => none
    else none

/-- The outcome of one `execute_phone_calls_for_selected_options` invocation:
final store state, ordered trace of writes/placements, and the returned
result list (or the propagated exception). -/
structure ExecOut where
  fs : FS
  trace : List Event
  result : Except String (List CallResult)

/-- Model of `execute_phone_calls_for_selected_options`. -/
def execute (env : Env) (fs : FS) : ExecOut :=
  match fetchSelectedOptions fs.msgs with
  | .error e => ⟨fs, [], .error e⟩
  | .ok (opts, convo) =>
      if opts.isEmpty then ⟨fs, [], .ok []⟩
      else
        match updateSelectedOptionsStatus env fs opts "loading" with
        | .error e => ⟨fs, [], .error e⟩
        | .ok (fs1, evs1) =>
            let req := env.summarize convo
            match placeLoop env req opts 0 with
            | .error e => ⟨fs1, evs1, .error e⟩
            | .ok (results, evs2) =>
                let (fs2, evs3) := writeResultsStep env fs1 results
                let ids := collectCallIds results
                let evs4 := if ids.isEmpty then [] else [Event.spawnPoll ids]
                ⟨fs2, evs1 ++ evs2 ++ evs3 ++ evs4, .ok results⟩

/-- One record of the Call Provider's `get call status` response. -/
structure CallRecord where
  recording_url : Option String := none
  transcript : Option String := none
  deriving DecidableEq

/-- The `response` object of `get_synthflow_call`. -/
structure GetCallResponse where
  calls : List CallRecord
  deriving DecidableEq

/-- External collaborators of one polling session: the status query per
(iteration, call id), and per-(iteration, call id) injected write failures. -/
structure PollEnv where
  getCall : Nat → String → Except String GetCallResponse
  writeFails : Nat → String → Bool := fun _ _ => false

/-- Python truthiness of an optional string (`if recording_url and transcript`). -/
def truthy : Option String → Bool
  | some s => !s.isEmpty
  | none => false

/-- Provider queries and store writes performed by a polling session. -/
inductive PollEvent where
  | query (iter : Nat) (id : String)
  | write (iter : Nat) (id : String) (items : List ListItem)
  deriving DecidableEq

/-- The rebuilt candidate list of `_update_firestore_with_call_results`:
candidates whose `call_id` matches get the recording, transcript and status
`completed`; dictionaries without a name and non-dictionaries are dropped. -/
def pollWriteItems (cid : String) (u t : Option String) (items : List ListItem) : List ListItem :=
  items.filterMap fun it =>
    match it with
    | .dict r =>
        match r.name with
        | some _ =>
            some (.dict (if r.call_id = some cid then
              { r with recording_url := u, transcript := t, status := some "completed" }
              else r))
        | none => none
    | .nondict _ => none

/-- Model of `_update_firestore_with_call_results`: write recording, transcript and
`completed` status onto the matching candidate of the last message. Returns
normally — performing no write — when the task has no messages, the payload
is not a list, or the message id is missing; only a raising document update
propagates. -/
def updateFirestoreWithCallResults (penv : PollEnv) (iter : Nat) (fs : FS)
    (cid : String) (u t : Option String) : Except String (FS × List PollEvent) :=
  match fs.msgs with
  | [] => .ok (fs, [])
  | m :: _ =>
      match m.text with
      | some (.list items) =>
          let items' := pollWriteItems cid u t items
          match m.id with
          | some mid =>
              if penv.writeFails iter cid then .error "FirestoreError"
              else .ok (updateDoc fs mid items', [PollEvent.write iter cid items'])
          | none => .ok (fs, [])
      | _ => .ok (fs, [])

/-- The per-call body of one polling iteration (lines 370-413): skip
completed calls; query the provider (failures logged and skipped); when the
first returned record has truthy recording and transcript, attempt the store
write and only on its normal return add the call to the completed set. -/
def pollOne (penv : PollEnv) (iter : Nat) (fs : FS) (completed : List String)
    (cid : String) : FS × List String × List PollEvent :=
  if cid ∈ completed then (fs, completed, [])
  else
    match penv.getCall iter cid with
    | .error _ => (fs, completed, [PollEvent.query iter cid])
    | .ok resp =>
        match resp.calls with
        | [] => (fs, completed, [PollEvent.query iter cid])
        | c :: _ =>
            if truthy c.recording_url && truthy c.transcript then
              match updateFirestoreWithCallResults penv iter fs cid c.recording_url c.transcript with
              | .ok (fs', evs) => (fs', completed ++ [cid], PollEvent.query iter cid :: evs)
              | .error _ => (fs, completed, [PollEvent.query iter cid])
            else (fs, completed, [PollEvent.query iter cid])

/-- One full polling iteration over the batch of call ids. -/
def pollPass (penv : PollEnv) (iter : Nat) (ids : List String) (fs : FS)
    (completed : List String) : FS × List String × List PollEvent :=
  match ids with
  | [] => (fs, completed, [])
  | cid :: rest =>
      let (fs1, comp1, ev1) := pollOne penv iter fs completed cid
      let (fs2, comp2, ev2) := pollPass penv iter rest fs1 comp1
      (fs2, comp2, ev1 ++ ev2)

/-- The outcome of a polling session: final store, final completed set,
event trace, and the completed set recorded after each executed iteration. -/
structure PollOut where
  fs : FS
  completed : List String
  trace : List PollEvent
  passes : List (List String)

/-- The iteration loop of `_poll_call_results_async`: up to `fuel`
iterations, breaking after any iteration whose completed-set size equals the
size of the batch. -/
def pollLoop (penv : PollEnv) (ids : List String) : Nat → Nat → FS → List String → PollOut
  | _, 0, fs, completed => ⟨fs, completed, [], []⟩
  | iter, fuel + 1, fs, completed =>
      let (fs1, comp1, ev1) := pollPass penv iter ids fs completed
      if comp1.length = ids.length then ⟨fs1, comp1, ev1, [comp1]⟩
      else
        let out := pollLoop penv ids (iter + 1) fuel fs1 comp1
        ⟨out.fs, out.completed, ev1 ++ out.trace, comp1 :: out.passes⟩

/-- Model of `_poll_call_results_async`: 20 iterations maximum, starting with an
empty completed set (the 5-second sleeps between iterations are not
modelled). -/
def pollCallResults (penv : PollEnv) (ids : List String) (fs : FS) : PollOut :=
  pollLoop penv ids 0 20 fs []

/-- The fallback summary of `summarize_conversation_to_sourcing_requirement`:
the fixed prefix, the first 200 characters of the conversation, and `...`. -/
def fallbackSummary (conversation_text : String) : String :=
  "Sourcing requirement based on conversation: " ++ conversation_text.take 200 ++ "..."

/-- The prompt built around the conversation (whitespace layout abbreviated;
only its dependence on the conversation text matters here). -/
def summaryPrompt (conversation_text : String) : String :=
  "You are a sourcing specialist. Based on the following conversation, " ++
  "create a concise sourcing requirement that captures the key details " ++
  "needed for procurement.\n\nConversation:\n" ++ conversation_text ++
  "\n\nFormat the response as a clear, professional sourcing requirement " ++
  "that can be used to contact suppliers.\n\nSourcing Requirement:\n"

/-- Model of `summarize_conversation_to_sourcing_requirement`: the whole LLM
interaction (chat-completion call plus content extraction) is the external
function `llm`; any of its failures is caught and replaced by the fallback,
a successful content is returned stripped. Total: it never raises. -/
def summarizeConversationToSourcingRequirement (llm : String → Except String String)
    (conversation_text : String) : String :=
  match llm (summaryPrompt conversation_text) with
  | .ok content => content.trim
  | .error _ => fallbackSummary conversation_text

/-! ## Fixtures used by witnesses and counterexamples -/

/-- An environment whose collaborators are never consulted successfully. -/
def noopEnv : Env := { summarize := fun _ => "", place := fun _ => .error "unused" }

/-- A task whose only message holds one candidate with `selected = False`. -/
def unselectedTask : FS :=
  ⟨[{ id := some "m1"
      text := some (.list [.dict { name := some "A", phone := some "555-1", selected := some false }]) }]⟩

/-- A task whose most recent message payload is a string containing a blank
line between two enumerated choices. -/
def blankLineTask : List Message :=
  [{ id := some "m1", text := some (.str "1. Pizza\n\n2. Sushi") }]

/-- The same task without the blank line. -/
def noBlankLineTask : List Message :=
  [{ id := some "m1", text := some (.str "1. Pizza\n2. Sushi") }]

/-! ## Claim theorems -/

/-- C9: the requirement summarizer never raises: it is a total function, and
whenever the LLM interaction fails, `summarize_conversation_to_sourcing_requirement`
returns the fallback string "Sourcing requirement based on conversation: "
followed by the first 200 characters of the conversation and "...". -/
theorem summarize_falls_back_on_llm_failure (llm : String → Except String String)
    (conversation_text e : String)
    (h : llm (summaryPrompt conversation_text) = .error e) :
    summarizeConversationToSourcingRequirement llm conversation_text =
      "Sourcing requirement based on conversation: " ++ conversation_text.take 200 ++ "..." := by
  simp [summarizeConversationToSourcingRequirement, h, fallbackSummary]

/-- Witness for C9 at a concrete failing LLM and conversation. -/
theorem summarize_falls_back_on_llm_failure_witness :
    summarizeConversationToSourcingRequirement (fun _ => .error "APIConnectionError") "Need 20 pizzas" =
      "Sourcing requirement based on conversation: " ++ "Need 20 pizzas".take 200 ++ "..." :=
  summarize_falls_back_on_llm_failure (fun _ => .error "APIConnectionError")
    "Need 20 pizzas" "APIConnectionError" rfl

/-- C2 (code bug): contrary to the claim, `fetch_selected_options` raises
`IndexError` on a string payload containing a blank line, because
`line and (...) or (...)` parses as `(line and ...) or (...)`, so the
emptiness guard does not protect the second disjunct, which indexes
`line[0]` of the empty stripped line. Without a blank (or length-1
digit/letter) line the heuristic does return exactly the matching stripped
lines, unfiltered by any selected flag. -/
theorem fetch_string_fallback_raises_on_blank_line :
    fetchSelectedOptions blankLineTask = .error "IndexError" ∧
    fetchSelectedOptions noBlankLineTask =
      .ok ([.strOpt "1. Pizza", .strOpt "2. Sushi"], "AI: 1. Pizza\n2. Sushi") := by
  exact ⟨rfl, rfl⟩

/-- C1: a task whose read layer reports zero selected candidates makes
`execute_phone_calls_for_selected_options` return `[]` (not an error),
leave the store untouched, and perform no writes (empty trace). -/
theorem execute_returns_empty_and_writes_nothing (env : Env) (fs : FS) (t : String)
    (h : fetchSelectedOptions fs.msgs = .ok ([], t)) :
    execute env fs = ⟨fs, [], .ok []⟩ := by
  unfold execute
  rw [h]
  rfl

/-- Witness for C1 at a concrete task with one unselected candidate. -/
theorem execute_returns_empty_and_writes_nothing_witness :
    execute noopEnv unselectedTask = ⟨unselectedTask, [], .ok []⟩ :=
  execute_returns_empty_and_writes_nothing noopEnv unselectedTask
    "AI: Restaurant options:\n1. A - 555-1\n" rfl

/-- A task with one selected candidate in its only message. -/
def oneSelectedTask : FS :=
  ⟨[{ id := some "m1",
      text := some (.list
        [.dict { name := some "A", phone := some "555-1", selected := some true, status := some "unknown" }]) }]⟩

/-- An environment whose loading-status write raises. -/
def statusFailEnv : Env :=
  { summarize := fun _ => "req", place := fun _ => .ok { call_id := some "c0" },
    statusWriteFails := true }

/-- An environment in which every call placement raises. -/
def placeFailEnv : Env := { summarize := fun _ => "req", place := fun _ => .error "boom" }

/-- A Call Provider that reports every call completed from the start. -/
def alwaysCompleteProvider : PollEnv :=
  { getCall := fun _ _ => .ok ⟨[{ recording_url := some "u", transcript := some "t" }]⟩ }

/-- The status-update helper reads the environment only through the
status-write failure flag. -/
theorem updateSelectedOptionsStatus_flag_only (sm sm' : String → String)
    (pl pl' : Nat → Except String SynthResult) (a b b' : Bool) (fs : FS)
    (options : List OptionEntry) (status : String) :
    updateSelectedOptionsStatus ⟨sm, pl, a, b⟩ fs options status =
      updateSelectedOptionsStatus ⟨sm', pl', a, b'⟩ fs options status := rfl

/-- The placement loop reads the environment only through `place`. -/
theorem placeLoop_place_only (sm sm' : String → String)
    (pl : Nat → Except String SynthResult) (a a' b b' : Bool) (req : String) :
    ∀ (opts : List OptionEntry) (i : Nat),
      placeLoop ⟨sm, pl, a, b⟩ req opts i = placeLoop ⟨sm', pl, a', b'⟩ req opts i := by
  intro opts
  induction opts with
  | nil => intro i; rfl
  | cons o rest ih =>
      intro i
      cases o with
      | strOpt s => rfl
      | dictOpt d =>
          simp only [placeLoop, ih (i + 1)]
          rfl

/-- C3 (corrected): the returned `CallResult` list is unaffected by a
failure of the post-placement call-results write (that failure is caught and
logged); the counterexample theorem shows the claim's universal form is
false for the loading-status write. -/
theorem results_write_failure_leaves_result_unchanged (env : Env) (fs : FS) :
    (execute { env with resultsWriteFails := true } fs).result =
      (execute { env with resultsWriteFails := false } fs).result := by
  obtain ⟨sm, pl, swf, rwf⟩ := env
  show (execute ⟨sm, pl, swf, true⟩ fs).result = (execute ⟨sm, pl, swf, false⟩ fs).result
  unfold execute
  cases hf : fetchSelectedOptions fs.msgs with
  | error e => rfl
  | ok p =>
      obtain ⟨opts, convo⟩ := p
      cases opts with
      | nil => rfl
      | cons o rest =>
          simp only [updateSelectedOptionsStatus_flag_only sm sm pl pl swf true false,
            placeLoop_place_only sm sm pl swf swf true false]
          cases hu : updateSelectedOptionsStatus ⟨sm, pl, swf, false⟩ fs (o :: rest) "loading" with
          | error e => rfl
          | ok q =>
              obtain ⟨fs1, evs1⟩ := q
              cases hp : placeLoop ⟨sm, pl, swf, false⟩ (sm convo) (o :: rest) 0 with
              | error e => rfl
              | ok r => rfl

/-- Counterexample for C3 as stated: a failure of the loading-status write —
a write of status to the Conversation Store — propagates to the caller of
`execute_phone_calls_for_selected_options`, and no `CallResult` list is
returned. -/
theorem status_write_failure_propagates :
    (execute statusFailEnv oneSelectedTask).result = .error "FirestoreError" := rfl

/-- Counterexample for C4 as stated: for a selected candidate whose call
placement errors, the returned `CallResult` records `failed`, but the
candidate's persisted status remains `loading` — no `failed` status is ever
written to the store. -/
theorem placement_failure_persists_loading_not_failed :
    (execute placeFailEnv oneSelectedTask).result =
      .ok [{ restaurant_name := "A", phone := "555-1", call_result := none,
             status := "failed", error := some "boom" }] ∧
    (execute placeFailEnv oneSelectedTask).fs.msgs =
      [{ id := some "m1",
         text := some (.list
           [.dict { name := some "A", phone := some "555-1", selected := some true, status := some "loading" }]) }] :=
  ⟨rfl, rfl⟩

/-- Counterexample for C10 as stated: with no messages in the store, the
status-update helper returns without performing any write, yet the call id
is still added to the completed set on the first iteration — the session's
trace holds a single query and no write event. -/
theorem completed_without_any_write :
    (pollCallResults alwaysCompleteProvider ["c1"] ⟨[]⟩).completed = ["c1"] ∧
    (pollCallResults alwaysCompleteProvider ["c1"] ⟨[]⟩).trace = [PollEvent.query 0 "c1"] :=
  ⟨rfl, rfl⟩

/-- The candidate list of the task's most recent message (empty when there
is no message or the payload is not a list). -/
def lastItems (fs : FS) : List ListItem :=
  match fs.msgs with
  | [] => []
  | m :: _ =>
      match m.text with
      | some (.list items) => items
      | _ => []

/-- Exhaustive shape analysis of one per-call polling step: skipped, left
pending (query failure, incomplete data, or raising write), completed
without a write (helper found nothing to update), or completed with the
in-place write. -/
theorem pollOne_shape (penv : PollEnv) (iter : Nat) (fs : FS) (comp : List String)
    (cid : String) :
    (cid ∈ comp ∧ pollOne penv iter fs comp cid = (fs, comp, [])) ∨
    (cid ∉ comp ∧ pollOne penv iter fs comp cid = (fs, comp, [PollEvent.query iter cid])) ∨
    (cid ∉ comp ∧ pollOne penv iter fs comp cid = (fs, comp ++ [cid], [PollEvent.query iter cid])) ∨
    (cid ∉ comp ∧ ∃ u t items m mrest mid,
      fs.msgs = m :: mrest ∧ m.text = some (.list items) ∧ m.id = some mid ∧
      truthy u = true ∧ truthy t = true ∧ penv.writeFails iter cid = false ∧
      pollOne penv iter fs comp cid =
        (updateDoc fs mid (pollWriteItems cid u t items), comp ++ [cid],
          [PollEvent.query iter cid, PollEvent.write iter cid (pollWriteItems cid u t items)])) := by
  by_cases hc : cid ∈ comp
  · exact Or.inl ⟨hc, by simp [pollOne, hc]⟩
  refine Or.inr ?_
  cases hg : penv.getCall iter cid with
  | error e => exact Or.inl ⟨hc, by simp [pollOne, hc, hg]⟩
  | ok resp =>
      obtain ⟨calls⟩ := resp
      cases calls with
      | nil => exact Or.inl ⟨hc, by simp [pollOne, hc, hg]⟩
      | cons c cs =>
          by_cases htr : truthy c.recording_url && truthy c.transcript
          · cases hm : fs.msgs with
            | nil =>
                refine Or.inr (Or.inl ⟨hc, ?_⟩)
                simp [pollOne, hc, hg, htr, updateFirestoreWithCallResults, hm]
            | cons m mrest =>
                cases htx : m.text with
                | none =>
                    refine Or.inr (Or.inl ⟨hc, ?_⟩)
                    simp [pollOne, hc, hg, htr, updateFirestoreWithCallResults, hm, htx]
                | some p =>
                    cases p with
                    | str s =>
                        refine Or.inr (Or.inl ⟨hc, ?_⟩)
                        simp [pollOne, hc, hg, htr, updateFirestoreWithCallResults, hm, htx]
                    | other r =>
                        refine Or.inr (Or.inl ⟨hc, ?_⟩)
                        simp [pollOne, hc, hg, htr, updateFirestoreWithCallResults, hm, htx]
                    | list items =>
                        cases hid : m.id with
                        | none =>
                            refine Or.inr (Or.inl ⟨hc, ?_⟩)
                            simp [pollOne, hc, hg, htr, updateFirestoreWithCallResults, hm, htx, hid]
                        | some mid =>
                            cases hwf : penv.writeFails iter cid with
                            | true =>
                                refine Or.inl ⟨hc, ?_⟩
                                simp [pollOne, hc, hg, htr, updateFirestoreWithCallResults, hm, htx, hid, hwf]
                            | false =>
                                refine Or.inr (Or.inr ⟨hc, c.recording_url, c.transcript,
                                  items, m, mrest, mid, rfl, htx, hid, ?_, ?_, rfl, ?_⟩)
                                · exact (Bool.and_eq_true _ _ ▸ htr).1
                                · exact (Bool.and_eq_true _ _ ▸ htr).2
                                · simp [pollOne, hc, hg, htr, updateFirestoreWithCallResults, hm, htx, hid, hwf]
          · exact Or.inl ⟨hc, by
              simp only [Bool.not_eq_true] at htr
              simp [pollOne, hc, hg, htr]⟩

/-- The completed set grows monotonically through one per-call step. -/
theorem pollOne_comp_mono (penv : PollEnv) (iter : Nat) (fs : FS) (comp : List String)
    (cid x : String) (hx : x ∈ comp) : x ∈ (pollOne penv iter fs comp cid).2.1 := by
  rcases pollOne_shape penv iter fs comp cid with ⟨_, h⟩ | ⟨_, h⟩ | ⟨_, h⟩ |
    ⟨_, u, t, items, m, mrest, mid, _, _, _, _, _, _, h⟩ <;>
    rw [h] <;> simp [hx]

/-- Anything in the completed set after one per-call step was there before
or is the processed call id. -/
theorem pollOne_comp_sub (penv : PollEnv) (iter : Nat) (fs : FS) (comp : List String)
    (cid x : String) (hx : x ∈ (pollOne penv iter fs comp cid).2.1) :
    x ∈ comp ∨ x = cid := by
  rcases pollOne_shape penv iter fs comp cid with ⟨_, h⟩ | ⟨_, h⟩ | ⟨_, h⟩ |
    ⟨_, u, t, items, m, mrest, mid, _, _, _, _, _, _, h⟩ <;>
    rw [h] at hx <;> simp at hx <;> tauto

/-- One per-call step keeps the completed set duplicate-free. -/
theorem pollOne_nodup (penv : PollEnv) (iter : Nat) (fs : FS) (comp : List String)
    (cid : String) (hnd : comp.Nodup) : (pollOne penv iter fs comp cid).2.1.Nodup := by
  rcases pollOne_shape penv iter fs comp cid with ⟨_, h⟩ | ⟨_, h⟩ | ⟨hc, h⟩ |
    ⟨hc, u, t, items, m, mrest, mid, _, _, _, _, _, _, h⟩ <;> rw [h]
  · exact hnd
  · exact hnd
  · simpa [List.nodup_append, hc] using hnd
  · simpa [List.nodup_append, hc] using hnd

/-- A query event produced by one per-call step names the processed call id,
which was pending. -/
theorem pollOne_query_mem (penv : PollEnv) (iter : Nat) (fs : FS) (comp : List String)
    (cid x : String) (it : Nat)
    (hx : PollEvent.query it x ∈ (pollOne penv iter fs comp cid).2.2) :
    x = cid ∧ cid ∉ comp := by
  rcases pollOne_shape penv iter fs comp cid with ⟨_, h⟩ | ⟨hc, h⟩ | ⟨hc, h⟩ |
    ⟨hc, u, t, items, m, mrest, mid, _, _, _, _, _, _, h⟩ <;> rw [h] at hx <;> simp at hx
  · exact ⟨hx.2, hc⟩
  · exact ⟨hx.2, hc⟩
  · exact ⟨hx.2, hc⟩

/-- A write event produced by one per-call step names the processed pending
call id and writes the candidate list produced by `pollWriteItems` from a
truthy recording and transcript. -/
theorem pollOne_write_mem (penv : PollEnv) (iter : Nat) (fs : FS) (comp : List String)
    (cid x : String) (it : Nat) (L : List ListItem)
    (hx : PollEvent.write it x L ∈ (pollOne penv iter fs comp cid).2.2) :
    x = cid ∧ cid ∉ comp ∧ ∃ u t items, truthy u = true ∧ truthy t = true ∧
      L = pollWriteItems x u t items := by
  rcases pollOne_shape penv iter fs comp cid with ⟨_, h⟩ | ⟨hc, h⟩ | ⟨hc, h⟩ |
    ⟨hc, u, t, items, m, mrest, mid, hm, htx, hid, hu, ht, hwf, h⟩ <;> rw [h] at hx <;> simp at hx
  obtain ⟨hit, hxc, hL⟩ := hx
  subst hxc
  exact ⟨rfl, hc, u, t, items, hu, ht, hL⟩

/-- A pending call id is queried by the per-call step that processes it. -/
theorem pollOne_query_emitted (penv : PollEnv) (iter : Nat) (fs : FS) (comp : List String)
    (cid : String) (hc : cid ∉ comp) :
    PollEvent.query iter cid ∈ (pollOne penv iter fs comp cid).2.2 := by
  rcases pollOne_shape penv iter fs comp cid with ⟨hc', h⟩ | ⟨_, h⟩ | ⟨_, h⟩ |
    ⟨_, u, t, items, m, mrest, mid, _, _, _, _, _, _, h⟩
  · exact absurd hc' hc
  · rw [h]; simp
  · rw [h]; simp
  · rw [h]; simp

/-- A raising store write leaves the call pending: the store and the
completed set are unchanged by that per-call step. -/
theorem pollOne_write_failure_stays_pending (penv : PollEnv) (iter : Nat) (fs : FS)
    (comp : List String) (cid : String) (m : Message) (mrest : List Message)
    (items : List ListItem) (mid : String)
    (hm : fs.msgs = m :: mrest) (htx : m.text = some (.list items)) (hid : m.id = some mid)
    (hwf : penv.writeFails iter cid = true) :
    (pollOne penv iter fs comp cid).1 = fs ∧ (pollOne penv iter fs comp cid).2.1 = comp := by
  by_cases hc : cid ∈ comp
  · simp [pollOne, hc]
  cases hg : penv.getCall iter cid with
  | error e => simp [pollOne, hc, hg]
  | ok resp =>
      obtain ⟨calls⟩ := resp
      cases calls with
      | nil => simp [pollOne, hc, hg]
      | cons c cs =>
          by_cases htr : truthy c.recording_url && truthy c.transcript
          · simp [pollOne, hc, hg, htr, updateFirestoreWithCallResults, hm, htx, hid, hwf]
          · simp only [Bool.not_eq_true] at htr
            simp [pollOne, hc, hg, htr]

/-- A pending call whose status query yields a first record with truthy
recording and transcript, and whose store write does not raise, is written
to the matching message in place and added to the completed set. -/
theorem pollOne_completes_and_persists (penv : PollEnv) (iter : Nat) (fs : FS)
    (comp : List String) (cid : String) (resp : GetCallResponse) (c : CallRecord)
    (cs : List CallRecord) (m : Message) (mrest : List Message)
    (items : List ListItem) (mid : String)
    (hc : cid ∉ comp)
    (hg : penv.getCall iter cid = .ok resp) (hcalls : resp.calls = c :: cs)
    (hu : truthy c.recording_url = true) (ht : truthy c.transcript = true)
    (hwf : penv.writeFails iter cid = false)
    (hm : fs.msgs = m :: mrest) (htx : m.text = some (.list items)) (hid : m.id = some mid) :
    pollOne penv iter fs comp cid =
      (updateDoc fs mid (pollWriteItems cid c.recording_url c.transcript items),
        comp ++ [cid],
        [PollEvent.query iter cid,
          PollEvent.write iter cid (pollWriteItems cid c.recording_url c.transcript items)]) := by
  obtain ⟨calls⟩ := resp
  simp only [GetCallResponse.mk.injEq] at hcalls
  subst hcalls
  simp [pollOne, hc, hg, hu, ht, updateFirestoreWithCallResults, hm, htx, hid, hwf]

/-- The candidate updated by `pollWriteItems` for the matching call id is a
member of the written list. -/
theorem pollWriteItems_updated_mem (cid : String) (u t : Option String)
    (items : List ListItem) (r : RestDict) (nm : String)
    (hr : ListItem.dict r ∈ items) (hn : r.name = some nm) (hcid : r.call_id = some cid) :
    ListItem.dict { r with recording_url := u, transcript := t, status := some "completed" } ∈
      pollWriteItems cid u t items := by
  refine List.mem_filterMap.mpr ⟨.dict r, hr, ?_⟩
  simp [hn, hcid]

/-- A named candidate with a different call id passes through
`pollWriteItems` unchanged. -/
theorem pollWriteItems_other_mem (cid : String) (u t : Option String)
    (items : List ListItem) (r : RestDict) (nm : String)
    (hr : ListItem.dict r ∈ items) (hn : r.name = some nm) (hne : r.call_id ≠ some cid) :
    ListItem.dict r ∈ pollWriteItems cid u t items := by
  refine List.mem_filterMap.mpr ⟨.dict r, hr, ?_⟩
  simp [hn, hne]

/-- After an in-place update addressed at the most recent message, the
current candidate list is the written one. -/
theorem updateDoc_lastItems (fs : FS) (m : Message) (mrest : List Message) (mid : String)
    (items' : List ListItem) (hm : fs.msgs = m :: mrest) (hid : m.id = some mid) :
    lastItems (updateDoc fs mid items') = items' := by
  simp [updateDoc, lastItems, hm, hid]

/-- Every write of `pollWriteItems` either copies a candidate whose call id
differs, or stamps the matching candidate with the truthy recording,
transcript and `completed`; here: membership form of the first fact, used to
show completed candidates are never rewritten. -/
theorem pollOne_preserves_completed_candidate (penv : PollEnv) (iter : Nat) (fs : FS)
    (comp : List String) (cid x : String) (r : RestDict) (nm : String)
    (hx : x ∈ comp) (hr : ListItem.dict r ∈ lastItems fs) (hn : r.name = some nm)
    (hcid : r.call_id = some x) :
    ListItem.dict r ∈ lastItems (pollOne penv iter fs comp cid).1 := by
  rcases pollOne_shape penv iter fs comp cid with ⟨_, h⟩ | ⟨_, h⟩ | ⟨_, h⟩ |
    ⟨hc, u, t, items, m, mrest, mid, hm, htx, hid, hu, ht, hwf, h⟩ <;> rw [h]
  · exact hr
  · exact hr
  · exact hr
  · have hlast : lastItems fs = items := by simp [lastItems, hm, htx]
    rw [updateDoc_lastItems fs m mrest mid _ hm hid]
    refine pollWriteItems_other_mem cid u t items r nm (hlast ▸ hr) hn ?_
    rw [hcid]
    intro hcon
    exact hc (by
      have : x = cid := by simpa using hcon
      exact this ▸ hx)

/-- Unfolding of one polling iteration over a nonempty batch. -/
theorem pollPass_cons (penv : PollEnv) (iter : Nat) (cid : String) (rest : List String)
    (fs : FS) (comp : List String) :
    pollPass penv iter (cid :: rest) fs comp =
      ((pollPass penv iter rest (pollOne penv iter fs comp cid).1
          (pollOne penv iter fs comp cid).2.1).1,
        (pollPass penv iter rest (pollOne penv iter fs comp cid).1
          (pollOne penv iter fs comp cid).2.1).2.1,
        (pollOne penv iter fs comp cid).2.2 ++
          (pollPass penv iter rest (pollOne penv iter fs comp cid).1
            (pollOne penv iter fs comp cid).2.1).2.2) := rfl

/-- The completed set grows monotonically through one polling iteration. -/
theorem pollPass_comp_mono (penv : PollEnv) (iter : Nat) :
    ∀ (ids : List String) (fs : FS) (comp : List String) (x : String), x ∈ comp →
      x ∈ (pollPass penv iter ids fs comp).2.1 := by
  intro ids
  induction ids with
  | nil => intro fs comp x hx; exact hx
  | cons cid rest ih =>
      intro fs comp x hx
      rw [pollPass_cons]
      exact ih _ _ x (pollOne_comp_mono penv iter fs comp cid x hx)

/-- Anything completed after one polling iteration was completed before or
is one of the batch's call ids. -/
theorem pollPass_comp_sub (penv : PollEnv) (iter : Nat) :
    ∀ (ids : List String) (fs : FS) (comp : List String) (x : String),
      x ∈ (pollPass penv iter ids fs comp).2.1 → x ∈ comp ∨ x ∈ ids := by
  intro ids
  induction ids with
  | nil => intro fs comp x hx; exact Or.inl hx
  | cons cid rest ih =>
      intro fs comp x hx
      rw [pollPass_cons] at hx
      rcases ih _ _ x hx with h | h
      · rcases pollOne_comp_sub penv iter fs comp cid x h with h' | h'
        · exact Or.inl h'
        · exact Or.inr (by simp [h'])
      · exact Or.inr (by simp [h])

/-- One polling iteration keeps the completed set duplicate-free. -/
theorem pollPass_nodup (penv : PollEnv) (iter : Nat) :
    ∀ (ids : List String) (fs : FS) (comp : List String), comp.Nodup →
      (pollPass penv iter ids fs comp).2.1.Nodup := by
  intro ids
  induction ids with
  | nil => intro fs comp h; exact h
  | cons cid rest ih =>
      intro fs comp h
      rw [pollPass_cons]
      exact ih _ _ (pollOne_nodup penv iter fs comp cid h)

/-- A call id already completed at the start of an iteration is never
queried during that iteration. -/
theorem pollPass_no_query_done (penv : PollEnv) (iter : Nat) :
    ∀ (ids : List String) (fs : FS) (comp : List String) (x : String) (it : Nat),
      x ∈ comp → PollEvent.query it x ∉ (pollPass penv iter ids fs comp).2.2 := by
  intro ids
  induction ids with
  | nil => intro fs comp x it _ hq; simp [pollPass] at hq
  | cons cid rest ih =>
      intro fs comp x it hx hq
      rw [pollPass_cons] at hq
      rcases List.mem_append.mp hq with h | h
      · obtain ⟨hxc, hcp⟩ := pollOne_query_mem penv iter fs comp cid x it h
        exact hcp (hxc ▸ hx)
      · exact ih _ _ x it (pollOne_comp_mono penv iter fs comp cid x hx) h

/-- A call id pending at the start of an iteration is queried during that
iteration. -/
theorem pollPass_query_pending (penv : PollEnv) (iter : Nat) :
    ∀ (ids : List String) (fs : FS) (comp : List String) (cid : String),
      cid ∈ ids → cid ∉ comp →
      PollEvent.query iter cid ∈ (pollPass penv iter ids fs comp).2.2 := by
  intro ids
  induction ids with
  | nil => intro fs comp cid h; simp at h
  | cons c rest ih =>
      intro fs comp cid hmem hc
      rw [pollPass_cons]
      rcases List.mem_cons.mp hmem with h | h
      · subst h
        exact List.mem_append.mpr (Or.inl (pollOne_query_emitted penv iter fs comp cid hc))
      · by_cases hcc : cid ∈ (pollOne penv iter fs comp c).2.1
        · rcases pollOne_comp_sub penv iter fs comp c cid hcc with h' | h'
          · exact absurd h' hc
          · subst h'
            exact List.mem_append.mpr (Or.inl (pollOne_query_emitted penv iter fs comp cid hc))
        · exact List.mem_append.mpr (Or.inr (ih _ _ cid h hcc))

/-- Every write event of one polling iteration writes a `pollWriteItems`
list built from a truthy recording and transcript for its call id. -/
theorem pollPass_write_mem (penv : PollEnv) (iter : Nat) :
    ∀ (ids : List String) (fs : FS) (comp : List String) (x : String) (it : Nat)
      (L : List ListItem),
      PollEvent.write it x L ∈ (pollPass penv iter ids fs comp).2.2 →
      ∃ u t items, truthy u = true ∧ truthy t = true ∧ L = pollWriteItems x u t items := by
  intro ids
  induction ids with
  | nil => intro fs comp x it L h; simp [pollPass] at h
  | cons cid rest ih =>
      intro fs comp x it L h
      rw [pollPass_cons] at h
      rcases List.mem_append.mp h with h' | h'
      · obtain ⟨hx, _, u, t, items, hu, ht, hL⟩ :=
          pollOne_write_mem penv iter fs comp cid x it L h'
        exact ⟨u, t, items, hu, ht, hL⟩
      · exact ih _ _ x it L h'

/-- A candidate carrying the call id of an already-completed call passes
through a whole polling iteration unchanged. -/
theorem pollPass_preserves_completed_candidate (penv : PollEnv) (iter : Nat) :
    ∀ (ids : List String) (fs : FS) (comp : List String) (x : String) (r : RestDict)
      (nm : String), x ∈ comp → ListItem.dict r ∈ lastItems fs → r.name = some nm →
      r.call_id = some x →
      ListItem.dict r ∈ lastItems (pollPass penv iter ids fs comp).1 := by
  intro ids
  induction ids with
  | nil => intro fs comp x r nm _ hr _ _; exact hr
  | cons cid rest ih =>
      intro fs comp x r nm hx hr hn hcid
      rw [pollPass_cons]
      exact ih _ _ x r nm (pollOne_comp_mono penv iter fs comp cid x hx)
        (pollOne_preserves_completed_candidate penv iter fs comp cid x r nm hx hr hn hcid)
        hn hcid

/-- Unfolding of the polling loop with fuel left. -/
theorem pollLoop_succ (penv : PollEnv) (ids : List String) (iter fuel : Nat)
    (fs : FS) (comp : List String) :
    pollLoop penv ids iter (fuel + 1) fs comp =
      (if (pollPass penv iter ids fs comp).2.1.length = ids.length then
        ⟨(pollPass penv iter ids fs comp).1, (pollPass penv iter ids fs comp).2.1,
          (pollPass penv iter ids fs comp).2.2, [(pollPass penv iter ids fs comp).2.1]⟩
      else
        ⟨(pollLoop penv ids (iter + 1) fuel (pollPass penv iter ids fs comp).1
            (pollPass penv iter ids fs comp).2.1).fs,
          (pollLoop penv ids (iter + 1) fuel (pollPass penv iter ids fs comp).1
            (pollPass penv iter ids fs comp).2.1).completed,
          (pollPass penv iter ids fs comp).2.2 ++
            (pollLoop penv ids (iter + 1) fuel (pollPass penv iter ids fs comp).1
              (pollPass penv iter ids fs comp).2.1).trace,
          (pollPass penv iter ids fs comp).2.1 ::
            (pollLoop penv ids (iter + 1) fuel (pollPass penv iter ids fs comp).1
              (pollPass penv iter ids fs comp).2.1).passes⟩ : PollOut) := rfl

/-- The completed set grows monotonically through the polling loop. -/
theorem pollLoop_comp_mono (penv : PollEnv) (ids : List String) :
    ∀ (fuel iter : Nat) (fs : FS) (comp : List String) (x : String), x ∈ comp →
      x ∈ (pollLoop penv ids iter fuel fs comp).completed := by
  intro fuel
  induction fuel with
  | zero => intro iter fs comp x hx; exact hx
  | succ fuel ih =>
      intro iter fs comp x hx
      rw [pollLoop_succ]
      by_cases hl : (pollPass penv iter ids fs comp).2.1.length = ids.length
      · simp only [hl, if_true]
        exact pollPass_comp_mono penv iter ids fs comp x hx
      · simp only [hl, if_false]
        exact ih _ _ _ x (pollPass_comp_mono penv iter ids fs comp x hx)

/-- The polling loop executes at most `fuel` iterations. -/
theorem pollLoop_passes_le (penv : PollEnv) (ids : List String) :
    ∀ (fuel iter : Nat) (fs : FS) (comp : List String),
      (pollLoop penv ids iter fuel fs comp).passes.length ≤ fuel := by
  intro fuel
  induction fuel with
  | zero => intro iter fs comp; simp [pollLoop]
  | succ fuel ih =>
      intro iter fs comp
      rw [pollLoop_succ]
      by_cases hl : (pollPass penv iter ids fs comp).2.1.length = ids.length
      · simp [hl]
      · simp only [hl, if_false, List.length_cons]
        exact Nat.succ_le_succ (ih _ _ _)

/-- Every iteration that is followed by another one ended with a completed
set whose size differs from the batch size (the loop's break condition). -/
theorem pollLoop_nonfinal_ne (penv : PollEnv) (ids : List String) :
    ∀ (fuel iter : Nat) (fs : FS) (comp : List String) (j : Nat) (p : List String),
      j + 1 < (pollLoop penv ids iter fuel fs comp).passes.length →
      (pollLoop penv ids iter fuel fs comp).passes.get? j = some p →
      p.length ≠ ids.length := by
  intro fuel
  induction fuel with
  | zero => intro iter fs comp j p h; simp [pollLoop] at h
  | succ fuel ih =>
      intro iter fs comp j p h hp
      rw [pollLoop_succ] at h hp
      by_cases hl : (pollPass penv iter ids fs comp).2.1.length = ids.length
      · simp only [hl, if_true] at h
        simp at h
      · simp only [hl, if_false] at h hp
        cases j with
        | zero =>
            simp only [List.get?_cons_zero, Option.some.injEq] at hp
            subst hp
            simpa using hl
        | succ j =>
            simp only [List.length_cons, Nat.add_lt_add_iff_right] at h
            simp only [List.get?_cons_succ] at hp
            exact ih (iter + 1) (pollPass penv iter ids fs comp).1
              (pollPass penv iter ids fs comp).2.1 j p h hp

/-- Every recorded per-iteration completed set is duplicate-free and drawn
from the batch's call ids. -/
theorem pollLoop_passes_inv (penv : PollEnv) (ids : List String) :
    ∀ (fuel iter : Nat) (fs : FS) (comp : List String), comp.Nodup →
      (∀ x ∈ comp, x ∈ ids) →
      ∀ p ∈ (pollLoop penv ids iter fuel fs comp).passes,
        p.Nodup ∧ ∀ x ∈ p, x ∈ ids := by
  intro fuel
  induction fuel with
  | zero => intro iter fs comp _ _ p hp; simp [pollLoop] at hp
  | succ fuel ih =>
      intro iter fs comp hnd hsub p hp
      rw [pollLoop_succ] at hp
      have hnd' := pollPass_nodup penv iter ids fs comp hnd
      have hsub' : ∀ x ∈ (pollPass penv iter ids fs comp).2.1, x ∈ ids := by
        intro x hx
        rcases pollPass_comp_sub penv iter ids fs comp x hx with h | h
        · exact hsub x h
        · exact h
      by_cases hl : (pollPass penv iter ids fs comp).2.1.length = ids.length
      · simp only [hl, if_true] at hp
        simp only [List.mem_singleton] at hp
        subst hp
        exact ⟨hnd', hsub'⟩
      · simp only [hl, if_false, List.mem_cons] at hp
        rcases hp with hp | hp
        · subst hp
          exact ⟨hnd', hsub'⟩
        · exact ih _ _ _ hnd' hsub' p hp

/-- A call id completed before the loop starts is never queried again and
stays completed. -/
theorem pollLoop_done_excluded (penv : PollEnv) (ids : List String) :
    ∀ (fuel iter : Nat) (fs : FS) (comp : List String) (x : String), x ∈ comp →
      x ∈ (pollLoop penv ids iter fuel fs comp).completed ∧
      ∀ it, PollEvent.query it x ∉ (pollLoop penv ids iter fuel fs comp).trace := by
  intro fuel
  induction fuel with
  | zero =>
      intro iter fs comp x hx
      exact ⟨hx, by intro it hq; simp [pollLoop] at hq⟩
  | succ fuel ih =>
      intro iter fs comp x hx
      rw [pollLoop_succ]
      have hx' := pollPass_comp_mono penv iter ids fs comp x hx
      by_cases hl : (pollPass penv iter ids fs comp).2.1.length = ids.length
      · simp only [hl, if_true]
        exact ⟨hx', by
          intro it hq
          exact pollPass_no_query_done penv iter ids fs comp x it hx hq⟩
      · simp only [hl, if_false]
        obtain ⟨hcomp, htr⟩ := ih (iter + 1) (pollPass penv iter ids fs comp).1
          (pollPass penv iter ids fs comp).2.1 x hx'
        refine ⟨hcomp, ?_⟩
        intro it hq
        rcases List.mem_append.mp hq with hq' | hq'
        · exact pollPass_no_query_done penv iter ids fs comp x it hx hq'
        · exact htr it hq'

/-- Every write event of a polling session writes a `pollWriteItems` list
built from a truthy recording and transcript for its call id. -/
theorem pollLoop_write_mem (penv : PollEnv) (ids : List String) :
    ∀ (fuel iter : Nat) (fs : FS) (comp : List String) (x : String) (it : Nat)
      (L : List ListItem),
      PollEvent.write it x L ∈ (pollLoop penv ids iter fuel fs comp).trace →
      ∃ u t items, truthy u = true ∧ truthy t = true ∧ L = pollWriteItems x u t items := by
  intro fuel
  induction fuel with
  | zero => intro iter fs comp x it L h; simp [pollLoop] at h
  | succ fuel ih =>
      intro iter fs comp x it L h
      rw [pollLoop_succ] at h
      by_cases hl : (pollPass penv iter ids fs comp).2.1.length = ids.length
      · simp only [hl, if_true] at h
        exact pollPass_write_mem penv iter ids fs comp x it L h
      · simp only [hl, if_false] at h
        rcases List.mem_append.mp h with h' | h'
        · exact pollPass_write_mem penv iter ids fs comp x it L h'
        · exact ih _ _ _ x it L h'

/-- A candidate carrying the call id of a call completed before the loop
starts passes through the whole polling session unchanged. -/
theorem pollLoop_preserves_completed_candidate (penv : PollEnv) (ids : List String) :
    ∀ (fuel iter : Nat) (fs : FS) (comp : List String) (x : String) (r : RestDict)
      (nm : String), x ∈ comp → ListItem.dict r ∈ lastItems fs → r.name = some nm →
      r.call_id = some x →
      ListItem.dict r ∈ lastItems (pollLoop penv ids iter fuel fs comp).fs := by
  intro fuel
  induction fuel with
  | zero => intro iter fs comp x r nm _ hr _ _; exact hr
  | succ fuel ih =>
      intro iter fs comp x r nm hx hr hn hcid
      rw [pollLoop_succ]
      have hr' := pollPass_preserves_completed_candidate penv iter ids fs comp x r nm hx hr hn hcid
      by_cases hl : (pollPass penv iter ids fs comp).2.1.length = ids.length
      · simp only [hl, if_true]
        exact hr'
      · simp only [hl, if_false]
        exact ih _ _ _ x r nm (pollPass_comp_mono penv iter ids fs comp x hx) hr' hn hcid

/-- C6: for every batch of (distinct) call identifiers, the background
polling session executes at most 20 iterations, and any iteration followed
by a further one ended with some call of the batch not yet completed —
i.e. the loop terminates early as soon as every call has been marked
completed. -/
theorem poll_terminates_within_budget (penv : PollEnv) (ids : List String) (fs : FS)
    (hnd : ids.Nodup) :
    (pollCallResults penv ids fs).passes.length ≤ 20 ∧
    ∀ j p, j + 1 < (pollCallResults penv ids fs).passes.length →
      (pollCallResults penv ids fs).passes.get? j = some p →
      ∃ cid, cid ∈ ids ∧ cid ∉ p := by
  constructor
  · exact pollLoop_passes_le penv ids 20 0 fs []
  · intro j p h hp
    have hne : p.length ≠ ids.length :=
      pollLoop_nonfinal_ne penv ids 20 0 fs [] j p h hp
    have hmem : p ∈ (pollCallResults penv ids fs).passes := List.get?_mem hp
    obtain ⟨hpnd, hpsub⟩ := pollLoop_passes_inv penv ids 20 0 fs []
      List.nodup_nil (by intro x hx; simp at hx) p hmem
    by_contra hall
    push_neg at hall
    have hsub2 : ids ⊆ p := fun cid hcid => hall cid hcid
    have h1 : ids.length ≤ p.length := (hnd.subperm hsub2).length_le
    have h2 : p.length ≤ ids.length := (hpnd.subperm fun x hx => hpsub x hx).length_le
    exact hne (Nat.le_antisymm h2 h1)

/-- Witness for C6 on a concrete two-call batch in which one call completes
on the third iteration and the other on the first: three iterations run. -/
theorem poll_terminates_within_budget_witness :
    [("c0" : String), "c1"].Nodup ∧
    ((pollCallResults
        { getCall := fun i cid =>
            if cid = "c1" then .ok ⟨[{ recording_url := some "u1", transcript := some "t1" }]⟩
            else if 2 ≤ i then .ok ⟨[{ recording_url := some "u0", transcript := some "t0" }]⟩
            else .ok ⟨[{ recording_url := some "u0" }]⟩ }
        ["c0", "c1"] ⟨[]⟩).passes.length ≤ 20 ∧
      ∀ j p, j + 1 < (pollCallResults
        { getCall := fun i cid =>
            if cid = "c1" then .ok ⟨[{ recording_url := some "u1", transcript := some "t1" }]⟩
            else if 2 ≤ i then .ok ⟨[{ recording_url := some "u0", transcript := some "t0" }]⟩
            else .ok ⟨[{ recording_url := some "u0" }]⟩ }
        ["c0", "c1"] ⟨[]⟩).passes.length →
        (pollCallResults
        { getCall := fun i cid =>
            if cid = "c1" then .ok ⟨[{ recording_url := some "u1", transcript := some "t1" }]⟩
            else if 2 ≤ i then .ok ⟨[{ recording_url := some "u0", transcript := some "t0" }]⟩
            else .ok ⟨[{ recording_url := some "u0" }]⟩ }
        ["c0", "c1"] ⟨[]⟩).passes.get? j = some p → ∃ cid, cid ∈ ["c0", "c1"] ∧ cid ∉ p) :=
  ⟨by decide, poll_terminates_within_budget _ ["c0", "c1"] ⟨[]⟩ (by decide)⟩

/-- A candidate engaged in call `c1`. -/
def candInCall : RestDict :=
  { name := some "A", phone := some "555-1", selected := some true, status := some "loading", call_id := some "c1" }

/-- A task whose current message holds one candidate in a call with id `c1`. -/
def pollTask : FS :=
  ⟨[{ id := some "m1", text := some (.list [.dict candInCall]) }]⟩

/-- C5: a pending call whose status query returns a first record with
non-empty recording and transcript (and whose store write succeeds) is
marked completed and the persisted candidate with the matching call id gets
the recording, transcript and status `completed`; and a call id in the
completed set is excluded from every remaining polling iteration of the
session (never queried again, still completed at the end). -/
theorem completed_call_persisted_and_excluded :
    (∀ (penv : PollEnv) (iter : Nat) (fs : FS) (comp : List String) (cid : String)
      (resp : GetCallResponse) (c : CallRecord) (cs : List CallRecord) (m : Message)
      (mrest : List Message) (items : List ListItem) (mid : String),
      cid ∉ comp →
      penv.getCall iter cid = .ok resp → resp.calls = c :: cs →
      truthy c.recording_url = true → truthy c.transcript = true →
      penv.writeFails iter cid = false →
      fs.msgs = m :: mrest → m.text = some (.list items) → m.id = some mid →
      cid ∈ (pollOne penv iter fs comp cid).2.1 ∧
      lastItems (pollOne penv iter fs comp cid).1 =
        pollWriteItems cid c.recording_url c.transcript items ∧
      ∀ r nm, ListItem.dict r ∈ items → r.name = some nm → r.call_id = some cid →
        ListItem.dict
            { r with recording_url := c.recording_url, transcript := c.transcript, status := some "completed" } ∈
          lastItems (pollOne penv iter fs comp cid).1) ∧
    (∀ (penv : PollEnv) (ids : List String) (fuel iter : Nat) (fs : FS)
      (comp : List String) (cid : String), cid ∈ comp →
      cid ∈ (pollLoop penv ids iter fuel fs comp).completed ∧
      ∀ it, PollEvent.query it cid ∉ (pollLoop penv ids iter fuel fs comp).trace) := by
  constructor
  · intro penv iter fs comp cid resp c cs m mrest items mid hc hg hcalls hu ht hwf hm htx hid
    have hstep := pollOne_completes_and_persists penv iter fs comp cid resp c cs m mrest
      items mid hc hg hcalls hu ht hwf hm htx hid
    rw [hstep]
    have hlast : lastItems (updateDoc fs mid (pollWriteItems cid c.recording_url c.transcript items)) =
        pollWriteItems cid c.recording_url c.transcript items :=
      updateDoc_lastItems fs m mrest mid _ hm hid
    refine ⟨by simp, hlast, ?_⟩
    intro r nm hr hn hcid
    rw [hlast]
    exact pollWriteItems_updated_mem cid c.recording_url c.transcript items r nm hr hn hcid
  · intro penv ids fuel iter fs comp cid hc
    exact pollLoop_done_excluded penv ids fuel iter fs comp cid hc

/-- Witness for C5: one candidate, call `c1`, provider reports recording and
transcript on the first query; afterwards `c1` is completed, the persisted
candidate carries the data, and with `c1` completed a session never queries
it. -/
theorem completed_call_persisted_and_excluded_witness :
    ("c1" ∈ (pollOne alwaysCompleteProvider 0 pollTask [] "c1").2.1 ∧
      lastItems (pollOne alwaysCompleteProvider 0 pollTask [] "c1").1 =
        pollWriteItems "c1" (some "u") (some "t") [.dict candInCall] ∧
      ListItem.dict { candInCall with recording_url := some "u", transcript := some "t", status := some "completed" } ∈
        lastItems (pollOne alwaysCompleteProvider 0 pollTask [] "c1").1) ∧
    ("c1" ∈ (pollLoop alwaysCompleteProvider ["c1"] 0 20 pollTask ["c1"]).completed ∧
      PollEvent.query 3 "c1" ∉ (pollLoop alwaysCompleteProvider ["c1"] 0 20 pollTask ["c1"]).trace) := by
  have h1 := completed_call_persisted_and_excluded.1 alwaysCompleteProvider 0 pollTask []
    "c1" ⟨[{ recording_url := some "u", transcript := some "t" }]⟩
    { recording_url := some "u", transcript := some "t" } []
    { id := some "m1", text := some (.list [.dict candInCall]) } [] [.dict candInCall] "m1"
    (by simp) rfl rfl rfl rfl rfl rfl rfl rfl
  have h2 := completed_call_persisted_and_excluded.2 alwaysCompleteProvider ["c1"] 20 0
    pollTask ["c1"] "c1" (by simp)
  exact ⟨⟨h1.1, h1.2.1, h1.2.2 _ "A" (by simp) rfl rfl⟩, h2.1, h2.2 3⟩

/-- A provider whose status queries always succeed with complete data but
whose store writes always raise. -/
def writeFailProvider : PollEnv :=
  { getCall := fun _ _ => .ok ⟨[{ recording_url := some "u", transcript := some "t" }]⟩,
    writeFails := fun _ _ => true }

/-- C10 (corrected): when the store write raises, the call stays pending
(store and completed set unchanged) and, being pending, it is queried again
in the next executed iteration; the counterexample theorem shows that with
nothing to update the helper returns without raising and the call is marked
completed without any write. -/
theorem pending_until_helper_returns :
    (∀ (penv : PollEnv) (iter : Nat) (fs : FS) (comp : List String) (cid : String)
      (m : Message) (mrest : List Message) (items : List ListItem) (mid : String),
      fs.msgs = m :: mrest → m.text = some (.list items) → m.id = some mid →
      penv.writeFails iter cid = true →
      (pollOne penv iter fs comp cid).1 = fs ∧ (pollOne penv iter fs comp cid).2.1 = comp) ∧
    (∀ (penv : PollEnv) (iter : Nat) (ids : List String) (fs : FS) (comp : List String)
      (cid : String), cid ∈ ids → cid ∉ comp →
      PollEvent.query iter cid ∈ (pollPass penv iter ids fs comp).2.2) := by
  constructor
  · intro penv iter fs comp cid m mrest items mid hm htx hid hwf
    exact pollOne_write_failure_stays_pending penv iter fs comp cid m mrest items mid
      hm htx hid hwf
  · intro penv iter ids fs comp cid hmem hc
    exact pollPass_query_pending penv iter ids fs comp cid hmem hc

/-- Witness for C10's amended claim: a raising write leaves `c1` pending
with the store untouched, and a pending `c1` is queried in the iteration. -/
theorem pending_until_helper_returns_witness :
    ((pollOne writeFailProvider 0 pollTask [] "c1").1 = pollTask ∧
      (pollOne writeFailProvider 0 pollTask [] "c1").2.1 = []) ∧
    PollEvent.query 0 "c1" ∈ (pollPass alwaysCompleteProvider 0 ["c1"] pollTask []).2.2 :=
  ⟨pending_until_helper_returns.1 writeFailProvider 0 pollTask [] "c1"
      { id := some "m1", text := some (.list [.dict candInCall]) } [] [.dict candInCall] "m1"
      rfl rfl rfl rfl,
    pending_until_helper_returns.2 alwaysCompleteProvider 0 ["c1"] pollTask [] "c1"
      (by simp) (by simp)⟩

/-- The per-candidate results of the sequential placement loop, placing the
call for the candidate at offset `i` with the provider's `i`-th outcome. -/
def expectedResults (env : Env) : Nat → List OptData → List CallResult
  | _, [] => []
  | i, d :: rest => placeResult env i d :: expectedResults env (i + 1) rest

/-- On an all-dictionary option list the placement loop never raises and
produces exactly one result and one placement per candidate, in order. -/
theorem placeLoop_map_dict (env : Env) (req : String) :
    ∀ (ds : List OptData) (i : Nat),
      placeLoop env req (ds.map .dictOpt) i =
        .ok (expectedResults env i ds,
          ds.map fun d => Event.placeAttempt d.name d.phone req) := by
  intro ds
  induction ds with
  | nil => intro i; rfl
  | cons d rest ih =>
      intro i
      simp only [List.map_cons, placeLoop, ih (i + 1), expectedResults]
      rfl

/-- One result per candidate. -/
theorem expectedResults_length (env : Env) :
    ∀ (ds : List OptData) (i : Nat), (expectedResults env i ds).length = ds.length := by
  intro ds
  induction ds with
  | nil => intro i; rfl
  | cons d rest ih => intro i; simp [expectedResults, ih (i + 1)]

/-- The `j`-th result is the `j`-th candidate's placement outcome. -/
theorem expectedResults_get (env : Env) :
    ∀ (ds : List OptData) (i j : Nat),
      (expectedResults env i ds).get? j = (ds.get? j).map fun d => placeResult env (i + j) d := by
  intro ds
  induction ds with
  | nil => intro i j; rfl
  | cons d rest ih =>
      intro i j
      cases j with
      | zero => simp [expectedResults]
      | succ j =>
          simp only [expectedResults, List.get?_cons_succ, ih (i + 1) j]
          congr 1
          funext d'
          congr 1
          omega

/-- Scanning an all-dictionary option list for a name never raises. -/
theorem findNameMatch_dict_ok (ds : List OptData) (nm : String) :
    ∃ b, findNameMatch (ds.map .dictOpt) nm = .ok b := by
  induction ds with
  | nil => exact ⟨false, rfl⟩
  | cons d rest ih =>
      by_cases h : d.name = nm
      · exact ⟨true, by simp [findNameMatch, h]⟩
      · obtain ⟨b, hb⟩ := ih
        exact ⟨b, by simp [findNameMatch, h, hb]⟩

/-- The status-update scan never raises on an all-dictionary option list. -/
theorem updateStatusItems_dict_ok (ds : List OptData) (st : String) :
    ∀ items, ∃ items', updateStatusItems (ds.map .dictOpt) st items = .ok items' := by
  intro items
  induction items with
  | nil => exact ⟨[], rfl⟩
  | cons it rest ih =>
      obtain ⟨tail, htail⟩ := ih
      cases it with
      | nondict s => exact ⟨tail, by simpa [updateStatusItems] using htail⟩
      | dict r =>
          cases hn : r.name with
          | none => exact ⟨tail, by simpa [updateStatusItems, hn] using htail⟩
          | some nm =>
              obtain ⟨b, hb⟩ := findNameMatch_dict_ok ds nm
              refine ⟨.dict (if b then { r with status := some st } else r) :: tail, ?_⟩
              simp only [updateStatusItems, hn, hb, htail]
              rfl

/-- With the write succeeding, the status-update helper never raises on an
all-dictionary option list. -/
theorem updateSelectedOptionsStatus_dict_ok (env : Env) (fs : FS) (ds : List OptData)
    (st : String) (h : env.statusWriteFails = false) :
    ∃ fs' evs, updateSelectedOptionsStatus env fs (ds.map .dictOpt) st = .ok (fs', evs) := by
  cases hm : fs.msgs with
  | nil => exact ⟨fs, [], by simp [updateSelectedOptionsStatus, hm]⟩
  | cons m mrest =>
      cases htx : m.text with
      | none => exact ⟨fs, [], by simp [updateSelectedOptionsStatus, hm, htx]⟩
      | some p =>
          cases p with
          | str s => exact ⟨fs, [], by simp [updateSelectedOptionsStatus, hm, htx]⟩
          | other s => exact ⟨fs, [], by simp [updateSelectedOptionsStatus, hm, htx]⟩
          | list items =>
              obtain ⟨items', hitems⟩ := updateStatusItems_dict_ok ds st items
              cases hid : m.id with
              | none =>
                  exact ⟨fs, [], by
                    simp only [updateSelectedOptionsStatus, hm, htx, hid, hitems]
                    rfl⟩
              | some mid =>
                  exact ⟨updateDoc fs mid items', [Event.writeStatus mid items'], by
                    simp only [updateSelectedOptionsStatus, hm, htx, hid, hitems, h]
                    rfl⟩

/-- The full shape of a successful orchestrator run over an all-dictionary
candidate set. -/
theorem execute_ok_shape (env : Env) (fs : FS) (ds : List OptData) (convo : String)
    (fs1 : FS) (evs1 : List Event) (hne : ds ≠ [])
    (hfetch : fetchSelectedOptions fs.msgs = .ok (ds.map .dictOpt, convo))
    (hst : updateSelectedOptionsStatus env fs (ds.map .dictOpt) "loading" = .ok (fs1, evs1)) :
    execute env fs =
      ⟨(writeResultsStep env fs1 (expectedResults env 0 ds)).1,
        evs1 ++ (ds.map fun d => Event.placeAttempt d.name d.phone (env.summarize convo)) ++
          (writeResultsStep env fs1 (expectedResults env 0 ds)).2 ++
          (if (collectCallIds (expectedResults env 0 ds)).isEmpty then []
            else [Event.spawnPoll (collectCallIds (expectedResults env 0 ds))]),
        .ok (expectedResults env 0 ds)⟩ := by
  unfold execute
  rw [hfetch]
  cases ds with
  | nil => exact absurd rfl hne
  | cons d0 drest =>
      dsimp only
      rw [if_neg (by simp : ¬ (((d0 :: drest).map OptionEntry.dictOpt).isEmpty = true))]
      rw [hst]
      rw [placeLoop_map_dict env (env.summarize convo) (d0 :: drest) 0]

/-- C7: placements are fault-isolated: over an all-dictionary candidate set
the run returns one result per candidate, the `j`-th result depends only on
the `j`-th candidate and the `j`-th placement outcome (a raising placement
yields a `failed` record with the error string, a successful one a `success`
record), and every candidate's placement is attempted. -/
theorem call_placements_fault_isolated (env : Env) (fs : FS) (ds : List OptData)
    (convo : String) (hne : ds ≠ [])
    (hfetch : fetchSelectedOptions fs.msgs = .ok (ds.map .dictOpt, convo))
    (hsw : env.statusWriteFails = false) :
    ∃ results, (execute env fs).result = .ok results ∧
      results.length = ds.length ∧
      (∀ j d e, ds.get? j = some d → env.place j = .error e →
        results.get? j =
          some { restaurant_name := d.name, phone := d.phone, call_result := none, status := "failed", error := some e }) ∧
      (∀ j d r, ds.get? j = some d → env.place j = .ok r →
        results.get? j =
          some { restaurant_name := d.name, phone := d.phone, call_result := some r, status := "success" }) ∧
      (∀ j d, ds.get? j = some d →
        Event.placeAttempt d.name d.phone (env.summarize convo) ∈ (execute env fs).trace) := by
  obtain ⟨fs1, evs1, hst⟩ := updateSelectedOptionsStatus_dict_ok env fs ds "loading" hsw
  have hex := execute_ok_shape env fs ds convo fs1 evs1 hne hfetch hst
  refine ⟨expectedResults env 0 ds, by rw [hex], expectedResults_length env ds 0, ?_, ?_, ?_⟩
  · intro j d e hd he
    rw [expectedResults_get env ds 0 j, hd]
    simp [Nat.zero_add, placeResult, he]
  · intro j d r hd hr
    rw [expectedResults_get env ds 0 j, hd]
    simp [Nat.zero_add, placeResult, hr]
  · intro j d hd
    rw [hex]
    have hdm : d ∈ ds := List.get?_mem hd
    have : Event.placeAttempt d.name d.phone (env.summarize convo) ∈
        ds.map fun d' => Event.placeAttempt d'.name d'.phone (env.summarize convo) :=
      List.mem_map_of_mem _ hdm
    simp only [List.append_assoc, List.mem_append]
    exact Or.inr (Or.inl this)

/-- A candidate list with two selected candidates. -/
def candSelA : RestDict :=
  { name := some "A", phone := some "555-1", selected := some true, status := some "unknown" }

/-- Second selected candidate. -/
def candSelB : RestDict :=
  { name := some "B", phone := some "555-2", selected := some true, status := some "unknown" }

/-- A task with two selected candidates in its only message. -/
def twoSelectedTask : FS :=
  ⟨[{ id := some "m1", text := some (.list [.dict candSelA, .dict candSelB]) }]⟩

/-- An environment in which the first placement raises and the second
succeeds. -/
def mixedPlaceEnv : Env :=
  { summarize := fun _ => "req",
    place := fun i => if i = 0 then .error "boom0" else .ok { call_id := some "c1" } }

/-- The surfaced option data of the two selected candidates. -/
def twoOptData : List OptData :=
  [{ name := "A", phone := "555-1", status := "unknown" },
    { name := "B", phone := "555-2", status := "unknown" }]

/-- Witness for C7: candidate A's placement raises, B's succeeds; both
placements are attempted, A's record is `failed` with the error, B's is
`success`. -/
theorem call_placements_fault_isolated_witness :
    Event.placeAttempt "A" "555-1" "req" ∈ (execute mixedPlaceEnv twoSelectedTask).trace ∧
    Event.placeAttempt "B" "555-2" "req" ∈ (execute mixedPlaceEnv twoSelectedTask).trace ∧
    (execute mixedPlaceEnv twoSelectedTask).result =
      .ok [{ restaurant_name := "A", phone := "555-1", call_result := none, status := "failed", error := some "boom0" },
            { restaurant_name := "B", phone := "555-2", call_result := some { call_id := some "c1" }, status := "success" }] := by
  obtain ⟨results, h1, h2, h3, h4, h5⟩ := call_placements_fault_isolated mixedPlaceEnv
    twoSelectedTask twoOptData "AI: Restaurant options:\n1. A - 555-1\n2. B - 555-2\n"
    (by decide) rfl rfl
  exact ⟨h5 0 { name := "A", phone := "555-1", status := "unknown" } rfl,
    h5 1 { name := "B", phone := "555-2", status := "unknown" } rfl, rfl⟩

/-- Reduction of `Except` bind on a success. -/
theorem except_ok_bind {α β ε : Type} (a : α) (f : α → Except ε β) :
    (Except.ok a : Except ε α) >>= f = f a := rfl

/-- Reduction of `Except` bind on a failure. -/
theorem except_error_bind {α β ε : Type} (e : ε) (f : α → Except ε β) :
    (Except.error e : Except ε α) >>= f = .error e := rfl

/-- Option extraction of a successful fetch over a nonempty message list. -/
theorem fetchSelectedOptions_ok_inv (m : Message) (mrest : List Message)
    (opts : List OptionEntry) (convo : String)
    (hf : fetchSelectedOptions (m :: mrest) = .ok (opts, convo)) :
    extractOptions (lastPayload m) = .ok opts := by
  unfold fetchSelectedOptions at hf
  dsimp only at hf
  cases hb : buildConversation (m :: mrest) with
  | error e =>
      rw [hb] at hf
      simp [except_error_bind] at hf
  | ok conv =>
      rw [hb] at hf
      cases he : extractOptions (lastPayload m) with
      | error e =>
          rw [he] at hf
          simp [except_ok_bind, except_error_bind] at hf
      | ok o =>
          rw [he] at hf
          simp only [except_ok_bind, Except.ok.injEq, Prod.mk.injEq] at hf
          rw [hf.1]

/-- Everything surfaced by the selected filter is an option dictionary. -/
theorem selectedOptions_all_dict (items : List ListItem) :
    ∀ o ∈ selectedOptions items, ∃ d, o = .dictOpt d := by
  intro o ho
  obtain ⟨it, _, hit⟩ := List.mem_filterMap.mp ho
  cases it with
  | nondict s => simp at hit
  | dict r =>
      cases hn : r.name with
      | none => simp [hn] at hit
      | some nm =>
          by_cases hs : r.selected = some true
          · simp only [hn, hs, if_pos] at hit
            exact ⟨mkOptData r nm, by simpa using hit.symm⟩
          · simp [hn, hs] at hit

/-- A named selected candidate is surfaced by the selected filter. -/
theorem selectedOptions_mem (items : List ListItem) (r : RestDict) (nm : String)
    (h : ListItem.dict r ∈ items) (hn : r.name = some nm) (hs : r.selected = some true) :
    OptionEntry.dictOpt (mkOptData r nm) ∈ selectedOptions items := by
  refine List.mem_filterMap.mpr ⟨.dict r, h, ?_⟩
  simp [hn, hs]

/-- Scanning an all-dictionary option list containing the name finds it. -/
theorem findNameMatch_ok_true (opts : List OptionEntry) (nm : String) (d : OptData)
    (hmem : OptionEntry.dictOpt d ∈ opts) (hd : d.name = nm)
    (hall : ∀ o ∈ opts, ∃ q, o = .dictOpt q) :
    findNameMatch opts nm = .ok true := by
  induction opts with
  | nil => simp at hmem
  | cons o rest ih =>
      cases o with
      | strOpt s =>
          obtain ⟨q, hq⟩ := hall (.strOpt s) (by simp)
          simp at hq
      | dictOpt q =>
          by_cases hq : q.name = nm
          · simp [findNameMatch, hq]
          · have hdq : OptionEntry.dictOpt d ∈ rest := by
              rcases List.mem_cons.mp hmem with h | h
              · have : d = q := by simpa using h
                exact absurd (this ▸ hd) hq
              · exact h
            have ih' := ih hdq fun o ho => hall o (List.mem_cons_of_mem _ ho)
            simp [findNameMatch, hq, ih']

/-- If every named selected candidate of the list is found by the option
scan, then in the successfully rebuilt list every selected candidate
carries the new status. -/
theorem updateStatusItems_selected (opts : List OptionEntry) (st : String) :
    ∀ (items items' : List ListItem),
      (∀ r nm, ListItem.dict r ∈ items → r.name = some nm → r.selected = some true →
        findNameMatch opts nm = .ok true) →
      updateStatusItems opts st items = .ok items' →
      ∀ r', ListItem.dict r' ∈ items' → r'.selected = some true → r'.status = some st := by
  intro items
  induction items with
  | nil =>
      intro items' _ hup r' hr'
      simp only [updateStatusItems, Except.ok.injEq] at hup
      subst hup
      simp at hr'
  | cons it rest ih =>
      intro items' hfind hup r' hr' hsel
      cases it with
      | nondict s =>
          exact ih items' (fun r nm hr => hfind r nm (List.mem_cons_of_mem _ hr)) hup r' hr' hsel
      | dict r =>
          cases hn : r.name with
          | none =>
              rw [updateStatusItems, hn] at hup
              dsimp only at hup
              exact ih items' (fun r nm hr => hfind r nm (List.mem_cons_of_mem _ hr)) hup r' hr' hsel
          | some nm =>
              rw [updateStatusItems, hn] at hup
              dsimp only at hup
              cases hb : findNameMatch opts nm with
              | error e => rw [hb] at hup; simp [except_error_bind] at hup
              | ok b =>
                  rw [hb] at hup
                  cases ht : updateStatusItems opts st rest with
                  | error e => rw [ht] at hup; simp [except_ok_bind, except_error_bind] at hup
                  | ok tail =>
                      rw [ht] at hup
                      simp only [except_ok_bind, Except.ok.injEq] at hup
                      subst hup
                      rcases List.mem_cons.mp hr' with h | h
                      · cases hbv : b with
                        | true =>
                            rw [hbv] at h
                            simp only [if_true, ListItem.dict.injEq] at h
                            rw [h]
                        | false =>
                            rw [hbv] at h
                            simp only [Bool.false_eq_true, if_false] at h
                            have hr'r : r' = r := by simpa using h
                            subst hr'r
                            have := hfind r' nm (List.mem_cons_self _ _) hn hsel
                            rw [hbv] at hb
                            rw [this] at hb
                            simp at hb
                      · exact ih tail (fun r nm hr => hfind r nm (List.mem_cons_of_mem _ hr))
                          ht r' h hsel

/-- Inversion of a successful status update over a list-payload message with
an addressable id: the write happened, in place, with the rebuilt list. -/
theorem updateSelectedOptionsStatus_ok_inv (env : Env) (fs : FS) (opts : List OptionEntry)
    (st : String) (m : Message) (mrest : List Message) (items : List ListItem)
    (mid : String) (fs1 : FS) (evs1 : List Event)
    (hm : fs.msgs = m :: mrest) (htx : m.text = some (.list items)) (hmid : m.id = some mid)
    (hu : updateSelectedOptionsStatus env fs opts st = .ok (fs1, evs1)) :
    ∃ items', updateStatusItems opts st items = .ok items' ∧
      env.statusWriteFails = false ∧ fs1 = updateDoc fs mid items' ∧
      evs1 = [Event.writeStatus mid items'] := by
  rw [updateSelectedOptionsStatus, hm] at hu
  dsimp only at hu
  rw [htx] at hu
  dsimp only at hu
  rw [hmid] at hu
  cases hup : updateStatusItems opts st items with
  | error e => rw [hup] at hu; simp [except_error_bind] at hu
  | ok items' =>
      rw [hup] at hu
      simp only [except_ok_bind] at hu
      cases hswf : env.statusWriteFails with
      | true => rw [hswf] at hu; simp at hu
      | false =>
          rw [hswf] at hu
          simp only [Bool.false_eq_true, if_false, Except.ok.injEq, Prod.mk.injEq] at hu
          exact ⟨items', rfl, rfl, hu.1.symm, hu.2.symm⟩

/-- The string-fallback heuristic only surfaces plain-string options. -/
theorem extractLines_all_str :
    ∀ (lines : List (List Char)) (res : List OptionEntry), extractLines lines = .ok res →
      ∀ o ∈ res, ∃ s, o = .strOpt s := by
  intro lines
  induction lines with
  | nil =>
      intro res h o ho
      simp only [extractLines, Except.ok.injEq] at h
      subst h
      simp at ho
  | cons line rest ih =>
      intro res h o ho
      rw [extractLines] at h
      cases hb : lineCond (pyStrip line) with
      | error e => rw [hb] at h; simp [except_error_bind] at h
      | ok b =>
          rw [hb] at h
          cases ht : extractLines rest with
          | error e => rw [ht] at h; simp [except_ok_bind, except_error_bind] at h
          | ok tail =>
              rw [ht] at h
              simp only [except_ok_bind, Except.ok.injEq] at h
              subst h
              cases hbv : b with
              | true =>
                  rw [hbv] at ho
                  simp only [if_true] at ho
                  rcases List.mem_cons.mp ho with h' | h'
                  · exact ⟨String.mk (pyStrip line), h'⟩
                  · exact ih tail ht o h'
              | false =>
                  rw [hbv] at ho
                  simp only [Bool.false_eq_true, if_false] at ho
                  exact ih tail ht o ho

/-- C8: in any run, if any call placement is attempted at all, the very
first store interaction of the run is the in-place write marking every
selected candidate of the current message `loading` — i.e. the loading
status is persisted synchronously before any call is placed. (The
hypothesis that the most recent message carries a document id reflects the
store, whose reads always attach one.) -/
theorem loading_written_before_any_placement (env : Env) (fs : FS)
    (hid : ∀ m, fs.msgs.head? = some m → m.id.isSome) :
    (∀ n p r, Event.placeAttempt n p r ∉ (execute env fs).trace) ∨
    (∃ mid L rest, (execute env fs).trace = Event.writeStatus mid L :: rest ∧
      ∀ d, ListItem.dict d ∈ L → d.selected = some true → d.status = some "loading") := by
  cases hf : fetchSelectedOptions fs.msgs with
  | error e =>
      left
      intro n p r
      simp [execute, hf]
  | ok pr =>
      obtain ⟨opts, convo⟩ := pr
      cases opts with
      | nil =>
          left
          intro n p r
          simp [execute, hf]
      | cons o orest =>
          cases hmsgs : fs.msgs with
          | nil =>
              rw [hmsgs] at hf
              simp [fetchSelectedOptions] at hf
          | cons m mrest =>
              have hext : extractOptions (lastPayload m) = .ok (o :: orest) :=
                fetchSelectedOptions_ok_inv m mrest _ _ (hmsgs ▸ hf)
              have hstr : ∀ s0 : String, o = .strOpt s0 →
                  (∀ n p r, Event.placeAttempt n p r ∉ (execute env fs).trace) := by
                intro s0 hs0 n p r
                have htail : updateSelectedOptionsStatus env fs (o :: orest) "loading" =
                    .ok (fs, []) → Event.placeAttempt n p r ∉ (execute env fs).trace := by
                  intro hu
                  have hp : placeLoop env (env.summarize convo) (o :: orest) 0 =
                      .error "TypeError" := by rw [hs0]; rfl
                  simp [execute, hf, hu, hp]
                cases htx : m.text with
                | none => exact htail (by simp [updateSelectedOptionsStatus, hmsgs, htx])
                | some p =>
                    cases p with
                    | str s => exact htail (by simp [updateSelectedOptionsStatus, hmsgs, htx])
                    | other s => exact htail (by simp [updateSelectedOptionsStatus, hmsgs, htx])
                    | list items =>
                        exfalso
                        rw [lastPayload, htx] at hext
                        simp only [extractOptions, Except.ok.injEq] at hext
                        obtain ⟨q, hq⟩ := selectedOptions_all_dict items o
                          (hext ▸ List.mem_cons_self o orest)
                        rw [hs0] at hq
                        simp at hq
              cases htx : m.text with
              | none =>
                  have hlp : ∃ s, lastPayload m = .str s := by
                    rw [lastPayload, htx]
                    cases m.message with
                    | some s => exact ⟨s, rfl⟩
                    | none =>
                        cases m.ai with
                        | some s => exact ⟨s, rfl⟩
                        | none =>
                            cases m.user with
                            | some s => exact ⟨s, rfl⟩
                            | none => exact ⟨"", rfl⟩
                  obtain ⟨s, hs⟩ := hlp
                  rw [hs] at hext
                  obtain ⟨s0, hs0⟩ := extractLines_all_str _ _ hext o (List.mem_cons_self o orest)
                  exact Or.inl (hstr s0 hs0)
              | some p =>
                  cases p with
                  | str s =>
                      have hlp : lastPayload m = .str s := by rw [lastPayload, htx]
                      rw [hlp] at hext
                      obtain ⟨s0, hs0⟩ := extractLines_all_str _ _ hext o (List.mem_cons_self o orest)
                      exact Or.inl (hstr s0 hs0)
                  | other s =>
                      have hlp : lastPayload m = .other s := by rw [lastPayload, htx]
                      rw [hlp] at hext
                      simp [extractOptions] at hext
                  | list items =>
                      have hlp : lastPayload m = .list items := by rw [lastPayload, htx]
                      rw [hlp] at hext
                      have hsel : selectedOptions items = o :: orest := by
                        simpa [extractOptions] using hext
                      have hidm : m.id.isSome := hid m (by rw [hmsgs]; rfl)
                      obtain ⟨mid, hmid⟩ := Option.isSome_iff_exists.mp hidm
                      cases hu : updateSelectedOptionsStatus env fs (o :: orest) "loading" with
                      | error e' =>
                          left
                          intro n p r
                          simp [execute, hf, hu]
                      | ok q =>
                          obtain ⟨fs1, evs1⟩ := q
                          obtain ⟨items', hitems, hswf, hfs1, hevs1⟩ :=
                            updateSelectedOptionsStatus_ok_inv env fs (o :: orest) "loading"
                              m mrest items mid fs1 evs1 hmsgs htx hmid hu
                          have hprop : ∀ d, ListItem.dict d ∈ items' → d.selected = some true →
                              d.status = some "loading" := by
                            refine updateStatusItems_selected (o :: orest) "loading" items items'
                              ?_ hitems
                            intro r nm hr hn hs
                            refine findNameMatch_ok_true (o :: orest) nm (mkOptData r nm) ?_ rfl ?_
                            · rw [← hsel]
                              exact selectedOptions_mem items r nm hr hn hs
                            · intro o' ho'
                              rw [← hsel] at ho'
                              exact selectedOptions_all_dict items o' ho'
                          right
                          cases hp : placeLoop env (env.summarize convo) (o :: orest) 0 with
                          | error e' =>
                              refine ⟨mid, items', [], ?_, hprop⟩
                              simp [execute, hf, hu, hp, hevs1]
                          | ok pr2 =>
                              obtain ⟨results, evs2⟩ := pr2
                              refine ⟨mid, items',
                                evs2 ++ (writeResultsStep env fs1 results).2 ++
                                  (if (collectCallIds results).isEmpty then []
                                    else [Event.spawnPoll (collectCallIds results)]), ?_, hprop⟩
                              simp [execute, hf, hu, hp, hevs1]

/-- Witness for C8 at a concrete two-candidate campaign. -/
theorem loading_written_before_any_placement_witness :
    (∀ n p r, Event.placeAttempt n p r ∉ (execute mixedPlaceEnv twoSelectedTask).trace) ∨
    (∃ mid L rest, (execute mixedPlaceEnv twoSelectedTask).trace =
        Event.writeStatus mid L :: rest ∧
      ∀ d, ListItem.dict d ∈ L → d.selected = some true → d.status = some "loading") :=
  loading_written_before_any_placement mixedPlaceEnv twoSelectedTask (by
    intro m hm
    simp only [twoSelectedTask, List.head?_cons, Option.some.injEq] at hm
    rw [← hm]
    rfl)

/-- Everything in a `pollWriteItems` output is either a copied candidate
with a different call id, or the matching candidate stamped `completed` with
the given recording and transcript. -/
theorem pollWriteItems_mem_inv (cid : String) (u t : Option String)
    (items : List ListItem) (r' : RestDict)
    (h : ListItem.dict r' ∈ pollWriteItems cid u t items) :
    (ListItem.dict r' ∈ items ∧ r'.call_id ≠ some cid) ∨
    (r'.status = some "completed" ∧ r'.recording_url = u ∧ r'.transcript = t) := by
  obtain ⟨it, hit, hmk⟩ := List.mem_filterMap.mp h
  cases it with
  | nondict s => simp at hmk
  | dict r =>
      cases hn : r.name with
      | none => simp [hn] at hmk
      | some nm =>
          simp only [hn, Option.some.injEq, ListItem.dict.injEq] at hmk
          by_cases hcid : r.call_id = some cid
          · right
            rw [if_pos hcid] at hmk
            rw [← hmk]
            exact ⟨rfl, rfl, rfl⟩
          · left
            rw [if_neg hcid] at hmk
            rw [← hmk]
            exact ⟨hit, hcid⟩

/-- C4 (amended): a selected candidate whose placement raises is recorded as
`failed` (with the error string) in the returned `CallResult` list — its
persisted status stays `loading`, as the counterexample shows; a candidate's
persisted record is stamped `completed` only by a write whose recording and
transcript are both truthy (every other candidate of that write is copied
with its call id unequal to the written one); and a candidate bound to an
already-completed call id is never modified again within the poll session. -/
theorem failed_recorded_completed_guarded_terminal :
    (∀ (env : Env) (fs : FS) (ds : List OptData) (convo : String) (j : Nat)
      (d : OptData) (e : String),
      ds ≠ [] → fetchSelectedOptions fs.msgs = .ok (ds.map .dictOpt, convo) →
      env.statusWriteFails = false → ds.get? j = some d → env.place j = .error e →
      (execute env fs).result = .ok (expectedResults env 0 ds) ∧
      (expectedResults env 0 ds).get? j =
        some { restaurant_name := d.name, phone := d.phone, call_result := none, status := "failed", error := some e }) ∧
    (∀ (penv : PollEnv) (ids : List String) (fuel iter : Nat) (fs : FS)
      (comp : List String) (x : String) (it : Nat) (L : List ListItem),
      PollEvent.write it x L ∈ (pollLoop penv ids iter fuel fs comp).trace →
      ∃ u t, truthy u = true ∧ truthy t = true ∧
        ∀ r', ListItem.dict r' ∈ L →
          (r'.call_id ≠ some x) ∨
          (r'.status = some "completed" ∧ r'.recording_url = u ∧ r'.transcript = t)) ∧
    (∀ (penv : PollEnv) (ids : List String) (fuel iter : Nat) (fs : FS)
      (comp : List String) (x : String) (r : RestDict) (nm : String),
      x ∈ comp → ListItem.dict r ∈ lastItems fs → r.name = some nm →
      r.call_id = some x →
      ListItem.dict r ∈ lastItems (pollLoop penv ids iter fuel fs comp).fs) := by
  refine ⟨?_, ?_, ?_⟩
  · intro env fs ds convo j d e hne hfetch hsw hd he
    obtain ⟨fs1, evs1, hst⟩ := updateSelectedOptionsStatus_dict_ok env fs ds "loading" hsw
    have hex := execute_ok_shape env fs ds convo fs1 evs1 hne hfetch hst
    refine ⟨by rw [hex], ?_⟩
    rw [expectedResults_get env ds 0 j, hd]
    simp [Nat.zero_add, placeResult, he]
  · intro penv ids fuel iter fs comp x it L hw
    obtain ⟨u, t, items, hu, ht, hL⟩ := pollLoop_write_mem penv ids fuel iter fs comp x it L hw
    refine ⟨u, t, hu, ht, ?_⟩
    intro r' hr'
    rw [hL] at hr'
    rcases pollWriteItems_mem_inv x u t items r' hr' with ⟨_, hne⟩ | hdone
    · exact Or.inl hne
    · exact Or.inr hdone
  · intro penv ids fuel iter fs comp x r nm hx hr hn hcid
    exact pollLoop_preserves_completed_candidate penv ids fuel iter fs comp x r nm hx hr hn hcid

/-- The option data of the single selected candidate of `oneSelectedTask`. -/
def oneOptData : List OptData := [{ name := "A", phone := "555-1", status := "unknown" }]

/-- Witness for C4's amended claim: a failing placement yields a `failed`
record; the concrete poll write for `c1` stamps only truthy data; and with
`c1` completed the candidate's record survives a full session untouched. -/
theorem failed_recorded_completed_guarded_terminal_witness :
    ((execute placeFailEnv oneSelectedTask).result = .ok (expectedResults placeFailEnv 0 oneOptData) ∧
      (expectedResults placeFailEnv 0 oneOptData).get? 0 =
        some { restaurant_name := "A", phone := "555-1", call_result := none, status := "failed", error := some "boom" }) ∧
    (∃ u t, truthy u = true ∧ truthy t = true ∧
      ∀ r', ListItem.dict r' ∈ pollWriteItems "c1" (some "u") (some "t") [.dict candInCall] →
        (r'.call_id ≠ some "c1") ∨
        (r'.status = some "completed" ∧ r'.recording_url = u ∧ r'.transcript = t)) ∧
    ListItem.dict candInCall ∈
      lastItems (pollLoop alwaysCompleteProvider ["c1"] 0 20 pollTask ["c1"]).fs := by
  refine ⟨?_, ?_, ?_⟩
  · exact failed_recorded_completed_guarded_terminal.1 placeFailEnv oneSelectedTask
      oneOptData "AI: Restaurant options:\n1. A - 555-1\n" 0
      { name := "A", phone := "555-1", status := "unknown" } "boom"
      (by decide) rfl rfl rfl rfl
  · exact failed_recorded_completed_guarded_terminal.2.1 alwaysCompleteProvider ["c1"]
      20 0 pollTask [] "c1" 0
      (pollWriteItems "c1" (some "u") (some "t") [.dict candInCall]) (by decide)
  · exact failed_recorded_completed_guarded_terminal.2.2 alwaysCompleteProvider ["c1"]
      20 0 pollTask ["c1"] "c1" candInCall "A" (by simp)
      (by simp [lastItems, pollTask]) rfl rfl
